import Mathlib

/-!
Verification model of layman's catalog reconciliation engine
(`layman/overlays/overlay.py`, `layman/dbbase.py`, `layman/db.py`).

XML documents are modelled at the element-tree level (the ElementTree
text codec is an external library); Python dicts become records,
exceptions become `Except`, and the filesystem / network side effects of
`RemoteDB.cache` become an explicit state fold over the configured URLs.
-/

/-! ## String helpers: Python `str.strip()`, `re.sub('\s+', ' ', .)`, `str()`/`int()` -/

/-- Model of Python's `str.strip()` (used by `strip_text` in `overlay.py`):
drop whitespace from both ends. -/
def pyStrip (s : String) : String :=
  ⟨((s.data.dropWhile Char.isWhitespace).reverse.dropWhile Char.isWhitespace).reverse⟩

/-- One pass of `WHITESPACE_REGEX.sub(' ', s)`: the flag records whether the
previous character was whitespace (so a run collapses to one space). -/
def collapseWsAux : Bool → List Char → List Char
  | _, [] => []
  | prevWs, c :: cs =>
    if c.isWhitespace then
      (if prevWs then [] else [' ']) ++ collapseWsAux true cs
    else
      c :: collapseWsAux false cs

/-- Model of `WHITESPACE_REGEX.sub(' ', s)` from `overlay.py`: every maximal
whitespace run becomes a single space. -/
def collapseWs (s : String) : String := ⟨collapseWsAux false s.data⟩

/-- Decimal digit to its character, e.g. `3 ↦ '3'`. -/
def digitChar (d : Nat) : Char := Char.ofNat (48 + d)

/-- Little-endian decimal digits of `n`, with explicit fuel (`fuel ≥ n` suffices). -/
def natDigitsAux : Nat → Nat → List Nat
  | 0, _ => []
  | fuel + 1, n => if n = 0 then [] else n % 10 :: natDigitsAux fuel (n / 10)

/-- Decimal character rendering of a natural number, as Python's `str` does. -/
def natChars (n : Nat) : List Char :=
  if n = 0 then ['0'] else ((natDigitsAux n n).map digitChar).reverse

/-- Model of Python's `str` on an integer (used by `Overlay.to_xml` for `priority`). -/
def pyStrInt : Int → String
  | .ofNat n => ⟨natChars n⟩
  | .negSucc m => ⟨'-' :: natChars (m + 1)⟩

/-- Character to decimal digit, `none` for a non-digit. -/
def charDigit (c : Char) : Option Nat :=
  if 48 ≤ c.toNat ∧ c.toNat ≤ 57 then some (c.toNat - 48) else none

/-- Value of a big-endian decimal digit list. -/
def digitsVal (ds : List Nat) : Nat := ds.foldl (fun a d => a * 10 + d) 0

/-- All characters converted to digits, `none` as soon as one is not a digit. -/
def allDigits : List Char → Option (List Nat)
  | [] => some []
  | c :: cs =>
    match charDigit c, allDigits cs with
    | some d, some ds => some (d :: ds)
    | _, _ => none

/-- Parse a non-empty all-digit character list. -/
def parseNatChars (cs : List Char) : Option Nat :=
  if cs.isEmpty then none
  else (allDigits cs).map digitsVal

/-- Model of Python's `int()` on a string (used by `from_xml`/`from_dict` for
`priority`); `none` models the `ValueError` raise. -/
def pyInt (s : String) : Option Int :=
  match s.data with
  | [] => none
  | c :: rest =>
    if c = '-' then (parseNatChars rest).map (fun n => -(n : Int))
    else if c = '+' then (parseNatChars rest).map (fun n => (n : Int))
    else (parseNatChars (c :: rest)).map (fun n => (n : Int))

theorem natDigitsAux_lt10 : ∀ fuel n d, d ∈ natDigitsAux fuel n → d < 10 := by
  intro fuel
  induction fuel with
  | zero => intro n d h; simp [natDigitsAux] at h
  | succ f ih =>
    intro n d h
    by_cases hn : n = 0
    · simp [natDigitsAux, hn] at h
    · simp only [natDigitsAux, if_neg hn, List.mem_cons] at h
      rcases h with h | h
      · subst h; exact Nat.mod_lt _ (by omega)
      · exact ih _ _ h

theorem digitsVal_append (ds : List Nat) (d : Nat) :
    digitsVal (ds ++ [d]) = digitsVal ds * 10 + d := by
  simp [digitsVal, List.foldl_append]

theorem natDigitsAux_val : ∀ fuel n, n ≤ fuel →
    digitsVal (natDigitsAux fuel n).reverse = n := by
  intro fuel
  induction fuel with
  | zero => intro n h; interval_cases n; simp [natDigitsAux, digitsVal]
  | succ f ih =>
    intro n h
    by_cases hn : n = 0
    · simp [natDigitsAux, hn, digitsVal]
    · have hdiv : n / 10 ≤ f := by
        have : n / 10 < n := Nat.div_lt_self (Nat.pos_of_ne_zero hn) (by omega)
        omega
      simp only [natDigitsAux, if_neg hn, List.reverse_cons]
      rw [digitsVal_append, ih _ hdiv]
      omega

theorem charDigit_digitChar : ∀ d, d < 10 → charDigit (digitChar d) = some d := by
  decide

theorem digitChar_bounds : ∀ d, d < 10 → 48 ≤ (digitChar d).toNat ∧ (digitChar d).toNat ≤ 57 := by
  decide

theorem allDigits_map_digitChar : ∀ ds : List Nat, (∀ d ∈ ds, d < 10) →
    allDigits (ds.map digitChar) = some ds := by
  intro ds
  induction ds with
  | nil => intro _; rfl
  | cons d rest ih =>
    intro h
    have hcd : charDigit (digitChar d) = some d := charDigit_digitChar d (h d (by simp))
    simp only [List.map_cons, allDigits, hcd, ih (fun x hx => h x (by simp [hx]))]

theorem natChars_digits : ∀ n, ∀ c ∈ natChars n, 48 ≤ c.toNat ∧ c.toNat ≤ 57 := by
  intro n c hc
  by_cases hn : n = 0
  · subst hn
    simp only [natChars, if_pos] at hc
    · simp only [List.mem_singleton] at hc
      subst hc; decide
  · simp only [natChars, if_neg hn, List.mem_reverse, List.mem_map] at hc
    obtain ⟨d, hd, rfl⟩ := hc
    exact digitChar_bounds d (natDigitsAux_lt10 _ _ _ hd)

theorem natDigitsAux_ne_nil : ∀ fuel n, n ≠ 0 → n ≤ fuel → natDigitsAux fuel n ≠ [] := by
  intro fuel n hn hle
  cases fuel with
  | zero => omega
  | succ f => simp [natDigitsAux, hn]

theorem natChars_ne_nil (n : Nat) : natChars n ≠ [] := by
  by_cases hn : n = 0
  · subst hn; simp [natChars]
  · simp only [natChars, if_neg hn]
    intro h
    rw [List.reverse_eq_nil_iff, List.map_eq_nil_iff] at h
    exact natDigitsAux_ne_nil n n hn (le_refl n) h

theorem parseNatChars_natChars (n : Nat) : parseNatChars (natChars n) = some n := by
  by_cases hn : n = 0
  · subst hn; decide
  · have hne : (natChars n).isEmpty = false := by
      cases h : natChars n with
      | nil => exact absurd h (natChars_ne_nil n)
      | cons a l => rfl
    simp only [parseNatChars, hne, Bool.false_eq_true, if_false]
    simp only [natChars, if_neg hn]
    rw [← List.map_reverse]
    rw [allDigits_map_digitChar _ (fun d hd => natDigitsAux_lt10 _ _ _ (List.mem_reverse.mp hd))]
    simp only [Option.map_some']
    rw [natDigitsAux_val n n (le_refl n)]

theorem pyInt_cons (c : Char) (rest : List Char) :
    pyInt ⟨c :: rest⟩ =
      (if c = '-' then (parseNatChars rest).map (fun n => -(n : Int))
       else if c = '+' then (parseNatChars rest).map (fun n => (n : Int))
       else (parseNatChars (c :: rest)).map (fun n => (n : Int))) := rfl

/-- Python's `int(str(p))` gives back `p`: the `priority` attribute written by
`Overlay.to_xml` is read back unchanged by `Overlay.from_xml`. -/
theorem pyInt_pyStrInt (p : Int) : pyInt (pyStrInt p) = some p := by
  cases p with
  | ofNat n =>
    obtain ⟨c, cs, hcc⟩ := List.exists_cons_of_ne_nil (natChars_ne_nil n)
    have hcb := natChars_digits n c (by rw [hcc]; simp)
    have hcm : c ≠ '-' := by intro h; subst h; revert hcb; decide
    have hcp : c ≠ '+' := by intro h; subst h; revert hcb; decide
    show pyInt ⟨natChars n⟩ = some (Int.ofNat n)
    rw [hcc, pyInt_cons, if_neg hcm, if_neg hcp, ← hcc, parseNatChars_natChars]
    rfl
  | negSucc m =>
    show pyInt ⟨'-' :: natChars (m + 1)⟩ = some (Int.negSucc m)
    rw [pyInt_cons, if_pos rfl, parseNatChars_natChars]
    show some (-(((m + 1 : Nat) : Int))) = some (Int.negSucc m)
    congr 1

/-! ## XML element model (`xml.etree.ElementTree` at tree level)

An element has a tag, an attribute dictionary, text and children.
`text = ""` models both Python `None` and the empty string (ElementTree
serializes them identically and `strip_text` maps both to `''`). -/

structure XElem where
  tag : String
  attrib : List (String × String)
  text : String
  children : List XElem

/-- `elem.find(tag)`: first direct child with the given tag, as in ElementTree. -/
def xfind (t : String) : List XElem → Option XElem
  | [] => none
  | e :: es => if e.tag = t then some e else xfind t es

/-- `elem.findall(tag)`: all direct children with the given tag, in order. -/
def xfindall (t : String) : List XElem → List XElem
  | [] => []
  | e :: es => if e.tag = t then e :: xfindall t es else xfindall t es

/-- Attribute dictionary lookup, `elem.attrib[k]` / `k in elem.attrib`. -/
def alookup (k : String) : List (String × String) → Option String
  | [] => none
  | kv :: rest => if kv.1 = k then some kv.2 else alookup k rest

theorem xfind_append (t : String) (a b : List XElem) :
    xfind t (a ++ b) = ((xfind t a).rec (xfind t b) (fun e => some e) : Option XElem) := by
  induction a with
  | nil => rfl
  | cons e es ih =>
    by_cases h : e.tag = t
    · simp [xfind, h]
    · simp [xfind, h, ih]

theorem xfindall_append (t : String) (a b : List XElem) :
    xfindall t (a ++ b) = xfindall t a ++ xfindall t b := by
  induction a with
  | nil => rfl
  | cons e es ih =>
    by_cases h : e.tag = t
    · simp [xfindall, h, ih]
    · simp [xfindall, h, ih]

/-- A `find` over children that all miss the tag gives `none`. -/
theorem xfind_none (t : String) (es : List XElem) (h : ∀ e ∈ es, e.tag ≠ t) :
    xfind t es = none := by
  induction es with
  | nil => rfl
  | cons e es ih =>
    simp only [xfind, if_neg (h e (by simp))]
    exact ih (fun x hx => h x (by simp [hx]))

/-- A `findall` over children that all miss the tag gives `[]`. -/
theorem xfindall_none (t : String) (es : List XElem) (h : ∀ e ∈ es, e.tag ≠ t) :
    xfindall t es = [] := by
  induction es with
  | nil => rfl
  | cons e es ih =>
    simp only [xfindall, if_neg (h e (by simp))]
    exact ih (fun x hx => h x (by simp [hx]))

/-- A `findall` over children that all carry the tag gives them all back. -/
theorem xfindall_all (t : String) (es : List XElem) (h : ∀ e ∈ es, e.tag = t) :
    xfindall t es = es := by
  induction es with
  | nil => rfl
  | cons e es ih =>
    simp only [xfindall, if_pos (h e (by simp))]
    rw [ih (fun x hx => h x (by simp [hx]))]

/-! ## Overlay entity (`layman/overlays/overlay.py`) -/

/-- A source backend instance as far as the engine's data model sees it:
its location (`self.src`) and its document `type` attribute (`type_key`).
`git.py` gives `type_key = "git"`; the other backend modules are not under
the sources. Value equality on these two fields is the source equality.
Modelled from the spec: `source.py` (class `OverlaySource`) is not under
the sources; the Source Backend contract (§6) exposes `type`, `type_key`
and the location, and the round-trip and store-equality properties
(§3, §8) require sources to compare by value. -/
structure Source where
  src : String
  type_key : String
deriving DecidableEq

/-- The keys of `OVERLAY_TYPES` in `overlay.py`.
Modelled from the spec: only `git.py` (`type_key = "git"`) is under the
sources; §1 and §9 list the remaining backend types
(svn/rsync/cvs/bzr/hg/darcs/tar plus the g-common backend). -/
def OVERLAY_TYPES : List String :=
  ["git", "g-common", "cvs", "svn", "rsync", "tar", "bzr", "mercurial", "darcs"]

/-- `QUALITY_LEVELS` from `overlay.py`. -/
def QUALITY_LEVELS : List String :=
  ["core", "stable", "testing", "experimental", "graveyard"]

/-- The overlay entity. `Option String` fields model Python attributes that
can hold `None`; `branch`/`subpath` are `none` when the attribute was never
assigned (the `from_dict` path does not set them). -/
structure Overlay where
  name : String
  sources : List Source
  branch : Option String
  subpath : Option String
  owner_email : Option String
  owner_name : Option String
  description : String
  status : Option String
  quality : String
  priority : Int
  homepage : Option String
  feeds : List String
  irc : Option String
deriving DecidableEq

/-- The two `output.warn` calls construction can make. -/
inductive OvWarn where
  | missingOwnerEmail
  | missingDescription
deriving DecidableEq

/-- The exceptions overlay construction can raise, as conditions
(`raise Exception(...)` in `from_xml` / `from_dict`; `badPriority` is the
`ValueError` out of `int()`). -/
inductive OvErr where
  | missingName
  | missingSource
  | unknownType (t : String)
  | missingOwnerEmail
  | missingDescription
  | badPriority (s : String)
deriving DecidableEq

/-- `strip_text(node)` from `from_xml`: the node text, stripped
(`""` models a `None` text). -/
def stripText (e : XElem) : String := pyStrip e.text

/-- The `name` resolution of `from_xml`: `name` child node, else `name`
attribute, else raise. -/
def parseXmlName (x : XElem) : Except OvErr String :=
  match xfind "name" x.children with
  | some e => .ok (stripText e)
  | none =>
    match alookup "name" x.attrib with
    | some v => .ok v
    | none => .error .missingName

/-- The `_sources` computation of `from_xml`: `source` children filtered to
those with a `type` attribute; if there are no `source` children at all,
the legacy `src`/`type` attribute pair yields one synthetic source node. -/
def sourceElems (x : XElem) : List XElem :=
  match xfindall "source" x.children with
  | [] =>
    match alookup "src" x.attrib, alookup "type" x.attrib with
    | some s, some t => [⟨"source", [("type", t)], s, []⟩]
    | _, _ => []
  | es => es.filter (fun e => (alookup "type" e.attrib).isSome)

/-- `create_overlay_source`: look the `type` attribute up in
`OVERLAY_TYPES` (unknown type raises) and take the stripped text as the
location. The `none` branch is unreachable for elements produced by
`sourceElems`. -/
def mkSource (e : XElem) : Except OvErr Source :=
  match alookup "type" e.attrib with
  | some t =>
    if OVERLAY_TYPES.contains t then .ok ⟨stripText e, t⟩
    else .error (.unknownType t)
  | none => .error (.unknownType "")

/-- The list comprehension `[create_overlay_source(e) for e in _sources]`. -/
def mkSources : List XElem → Except OvErr (List Source)
  | [] => .ok []
  | e :: es =>
    match mkSource e with
    | .error err => .error err
    | .ok s =>
      match mkSources es with
      | .error err => .error err
      | .ok ss => .ok (s :: ss)

/-- The shared `branch`/`subpath` resolution of `from_xml`: child node text
(stripped), else attribute, else `''`. -/
def parseHint (tag : String) (x : XElem) : String :=
  match xfind tag x.children with
  | some e => pyStrip e.text
  | none =>
    match alookup tag x.attrib with
    | some v => v
    | none => ""

/-- The owner fallback of `from_xml` when there is no `owner/email`: legacy
`contact` attribute, else `owner_email = ''` with a raise (`ignore = 0`),
a warning (`ignore = 1`) or silence. -/
def parseOwnerFallback (x : XElem) (ignore : Nat) :
    Except OvErr (Option String × Option String × List OvWarn) :=
  match alookup "contact" x.attrib with
  | some c => .ok (some c, none, [])
  | none =>
    if ignore = 0 then .error .missingOwnerEmail
    else if ignore = 1 then .ok (some "", none, [.missingOwnerEmail])
    else .ok (some "", none, [])

/-- The owner block resolution of `from_xml`. -/
def parseOwner (x : XElem) (ignore : Nat) :
    Except OvErr (Option String × Option String × List OvWarn) :=
  match xfind "owner" x.children with
  | some ow =>
    match xfind "email" ow.children with
    | some em => .ok (some (stripText em), (xfind "name" ow.children).map stripText, [])
    | none => parseOwnerFallback x ignore
  | none => parseOwnerFallback x ignore

/-- The description resolution of `from_xml`: whitespace-collapsed stripped
text, else `''` with raise/warn/silence per the ignore level. -/
def parseDesc (x : XElem) (ignore : Nat) : Except OvErr (String × List OvWarn) :=
  match xfind "description" x.children with
  | some d => .ok (collapseWs (stripText d), [])
  | none =>
    if ignore = 0 then .error .missingDescription
    else if ignore = 1 then .ok ("", [.missingDescription])
    else .ok ("", [])

/-- The quality resolution of `from_xml`: the attribute when it is one of
`QUALITY_LEVELS`, else `experimental`. -/
def parseQuality (x : XElem) : String :=
  match alookup "quality" x.attrib with
  | some q => if QUALITY_LEVELS.contains q then q else "experimental"
  | none => "experimental"

/-- The priority resolution of `from_xml`: `int(attrib)` when present
(a non-numeric attribute raises `ValueError`), else 50. -/
def parsePriorityX (x : XElem) : Except OvErr Int :=
  match alookup "priority" x.attrib with
  | some p =>
    match pyInt p with
    | some n => .ok n
    | none => .error (.badPriority p)
  | none => .ok 50

/-- The homepage resolution of `from_xml`: `homepage` child, else `link`
child, else `None`. -/
def parseHomepage (x : XElem) : Option String :=
  match xfind "homepage" x.children with
  | some h => some (stripText h)
  | none => (xfind "link" x.children).map stripText

/-- `Overlay.from_xml` (overlay.py, lines 111-243): process an xml overlay
definition node, returning the entity and the warnings it emitted, or the
exception it raised. -/
def Overlay.from_xml (x : XElem) (ignore : Nat) : Except OvErr (Overlay × List OvWarn) :=
  match parseXmlName x with
  | .error e => .error e
  | .ok name =>
    match sourceElems x with
    | [] => .error .missingSource
    | es =>
      match mkSources es with
      | .error e => .error e
      | .ok srcs =>
        match parseOwner x ignore with
        | .error e => .error e
        | .ok (oemail, oname, w1) =>
          match parseDesc x ignore with
          | .error e => .error e
          | .ok (desc, w2) =>
            match parsePriorityX x with
            | .error e => .error e
            | .ok prio =>
              .ok ({ name := name
                     sources := srcs
                     branch := some (parseHint "branch" x)
                     subpath := some (parseHint "subpath" x)
                     owner_email := oemail
                     owner_name := oname
                     description := desc
                     status := alookup "status" x.attrib
                     quality := parseQuality x
                     priority := prio
                     homepage := parseHomepage x
                     feeds := (xfindall "feed" x.children).map stripText
                     irc := (xfind "irc" x.children).map stripText }, w1 ++ w2)

/-- The plain key/value mapping accepted by `Overlay.from_dict`. An
`Option` value of `none` models the key holding Python `None`; the
`sources` entries are the `(src, type, sub)` triples the code unpacks. -/
structure OvDict where
  name : Option String
  sources : Option (List (String × String × String))
  owner_name : Option String
  owner_email : Option String
  description : Option String
  status : Option String
  quality : String
  priority : Option Int
  homepage : Option String
  feeds : List String
  irc : Option String
deriving DecidableEq

/-- `create_dict_overlay_source`: type lookup in `OVERLAY_TYPES`, location
taken verbatim (not stripped); the `sub` component is unused, as in the
code. -/
def mkDictSources : List (String × String × String) → Except OvErr (List Source)
  | [] => .ok []
  | (src, ty, _) :: rest =>
    if OVERLAY_TYPES.contains ty then
      match mkDictSources rest with
      | .error e => .error e
      | .ok ss => .ok (⟨src, ty⟩ :: ss)
    else .error (.unknownType ty)

/-- The missing-owner-email tail of `from_dict`: `owner_email = None` plus
raise/warn/silence per the ignore level. -/
def dictEmailMissing (ignore : Nat) (oname : Option String) :
    Except OvErr (Option String × Option String × List OvWarn) :=
  if ignore = 0 then .error .missingOwnerEmail
  else if ignore = 1 then .ok (none, oname, [.missingOwnerEmail])
  else .ok (none, oname, [])

/-- The owner resolution of `from_dict` (overlay.py, lines 276-292): when
`owner_name` is `None` the `owner_email` value is never read and the
email is treated as missing. -/
def dictOwner (d : OvDict) (ignore : Nat) :
    Except OvErr (Option String × Option String × List OvWarn) :=
  match d.owner_name with
  | none => dictEmailMissing ignore none
  | some ownName =>
    match d.owner_email with
    | some em => .ok (some em, some ownName, [])
    | none => dictEmailMissing ignore (some ownName)

/-- `Overlay.from_dict` (overlay.py, lines 246-336): process a plain
key/value overlay definition. `branch`/`subpath` are never assigned on
this path; `status`/`priority` go through Python truthiness (`''` and `0`
count as absent). -/
def Overlay.from_dict (d : OvDict) (ignore : Nat) : Except OvErr (Overlay × List OvWarn) :=
  match d.name with
  | none => .error .missingName
  | some name =>
    match d.sources with
    | none => .error .missingSource
    | some srcItems =>
      match mkDictSources srcItems with
      | .error e => .error e
      | .ok srcs =>
        match dictOwner d ignore with
        | .error e => .error e
        | .ok (oemail, oname, w1) =>
          match d.description with
          | some dsc =>
            .ok ({ name := name
                   sources := srcs
                   branch := none
                   subpath := none
                   owner_email := oemail
                   owner_name := oname
                   description := collapseWs dsc
                   status := (match d.status with
                              | some s => if s.length ≠ 0 then some s else none
                              | none => none)
                   quality := if d.quality.length ≠ 0 ∧ QUALITY_LEVELS.contains d.quality
                              then d.quality else "experimental"
                   priority := (match d.priority with
                                | some p => if p ≠ 0 then p else 50
                                | none => 50)
                   homepage := d.homepage
                   feeds := d.feeds
                   irc := d.irc }, w1)
          | none =>
            if ignore = 0 then .error .missingDescription
            else
              .ok ({ name := name
                     sources := srcs
                     branch := none
                     subpath := none
                     owner_email := oemail
                     owner_name := oname
                     description := ""
                     status := (match d.status with
                                | some s => if s.length ≠ 0 then some s else none
                                | none => none)
                     quality := if d.quality.length ≠ 0 ∧ QUALITY_LEVELS.contains d.quality
                                then d.quality else "experimental"
                     priority := (match d.priority with
                                  | some p => if p ≠ 0 then p else 50
                                  | none => 50)
                     homepage := d.homepage
                     feeds := d.feeds
                     irc := d.irc },
                   w1 ++ (if ignore = 1 then [.missingDescription] else []))

/-- Python's `i in sources` membership test, with the modelled source
value equality. -/
def sourceIn (s : Source) (l : List Source) : Bool := l.any (fun t => t == s)

/-- `Overlay.__eq__` (overlay.py, lines 342-356): compare description,
homepage, name, owner_email, owner_name, priority and status, then
require every source of either side to be a member of both source lists. -/
def Overlay.eq (a b : Overlay) : Bool :=
  (a.description == b.description) && (a.homepage == b.homepage) &&
  (a.name == b.name) && (a.owner_email == b.owner_email) &&
  (a.owner_name == b.owner_name) && (a.priority == b.priority) &&
  (a.status == b.status) &&
  (a.sources ++ b.sources).all (fun s => sourceIn s a.sources && sourceIn s b.sources)

/-- Helper: the singleton-or-empty child list of an optional element. -/
def optChild : Option XElem → List XElem
  | some e => [e]
  | none => []

/-- A leaf element with a tag and text. -/
def textElem (tag txt : String) : XElem := ⟨tag, [], txt, []⟩

/-- The `source` element `to_xml` writes for one source. -/
def srcElem (s : Source) : XElem := ⟨"source", [("type", s.type_key)], s.src, []⟩

/-- The `feed` element `to_xml` writes for one feed. -/
def feedElem (t : String) : XElem := ⟨"feed", [], t, []⟩

/-- The `owner` element `to_xml` writes: an `email` child (text `None`
serializes like `''`), plus a `name` child when `owner_name` is set. -/
def ownerElem (o : Overlay) : XElem :=
  ⟨"owner", [], "",
   [textElem "email" (o.owner_email.getD "")] ++
     optChild (o.owner_name.map (textElem "name"))⟩

/-- `Overlay.to_xml` (overlay.py, lines 364-408): serialize the entity to a
`repo` element. `to_xml_hook` appends nothing here; modelled from the
spec: `OverlaySource.to_xml_hook` (source.py) is not under the sources and
§6 calls it an optional extension point. -/
def Overlay.to_xml (o : Overlay) : XElem :=
  ⟨"repo",
   (match o.status with | some s => [("status", s)] | none => []) ++
     [("quality", o.quality), ("priority", pyStrInt o.priority)],
   "",
   [textElem "name" o.name, textElem "description" o.description] ++
     optChild (o.homepage.map (textElem "homepage")) ++
     optChild (o.irc.map (textElem "irc")) ++
     [ownerElem o] ++
     o.sources.map srcElem ++
     o.feeds.map feedElem⟩

/-- What one call `s.add(base)` on a source backend does: return a status
code, or raise. This is the external Source Backend collaborator (§6),
passed to `Overlay.add` as an oracle. -/
inductive AddOutcome where
  | returns (code : Int)
  | raisesExc (msg : String)
deriving DecidableEq

/-- The loop body of `Overlay.add`: `res` starts at 1; a raised exception
is warned about and skipped; a status is stored in `res`; status 0 breaks
with the source list collapsed to the successful source. -/
def addLoop (tryAdd : Source → AddOutcome) (orig : List Source) :
    List Source → Int → List String → Int × List Source × List String
  | [], res, warns => (res, orig, warns)
  | s :: rest, res, warns =>
    match tryAdd s with
    | .returns code =>
      if code = 0 then (0, [s], warns)
      else addLoop tryAdd orig rest code warns
    | .raisesExc msg => addLoop tryAdd orig rest res (warns ++ [msg])

/-- `Overlay.add` (overlay.py, lines 411-426): the multi-source fallback
algorithm. Returns the final status, the overlay (with its possibly
truncated source list) and the warnings logged for raised exceptions. -/
def Overlay.add (tryAdd : Source → AddOutcome) (o : Overlay) :
    Int × Overlay × List String :=
  match addLoop tryAdd o.sources o.sources 1 [] with
  | (res, srcs, warns) => (res, { o with sources := srcs }, warns)

/-! ## Catalog store (`layman/dbbase.py`)

`self.overlays` is a Python dict; modelled as an association list with
dict semantics (update in place, append new keys). Python 2 dict/set
iteration order is unspecified; the model fixes insertion order for the
dict and first-occurrence order for the key-set union in `__eq__`. -/

/-- The `overlays` mapping of a `DbBase`. -/
abbrev StoreMap := List (String × Overlay)

/-- The empty mapping (a freshly initialised `DbBase` with no file read). -/
def smEmpty : StoreMap := []

/-- `self.overlays[name]` read access. -/
def smLookup (s : StoreMap) (k : String) : Option Overlay :=
  match s with
  | [] => none
  | kv :: rest => if kv.1 = k then some kv.2 else smLookup rest k

/-- `self.overlays[name] = ovl` dict assignment. -/
def smInsert (s : StoreMap) (k : String) (v : Overlay) : StoreMap :=
  match s with
  | [] => [(k, v)]
  | kv :: rest => if kv.1 = k then (k, v) :: rest else kv :: smInsert rest k v

/-- `self.overlays.keys()`. -/
def smKeys (s : StoreMap) : List String := s.map (fun kv => kv.1)

/-- `self.overlays.values()`. -/
def smValues (s : StoreMap) : List Overlay := s.map (fun kv => kv.2)

/-- First-occurrence deduplication: the model of iterating
`set(keys1 + keys2)`. -/
def dedupKeys : List String → List String → List String
  | [], _ => []
  | k :: rest, seen =>
    if seen.contains k then dedupKeys rest seen
    else k :: dedupKeys rest (k :: seen)

/-- The loop of `DbBase.__eq__`: walk the union of both key sets, indexing
both dicts directly; a key missing on either side is a `KeyError`
(modelled as `.error`), the first unequal entity returns `False`. -/
def storeEqLoop (a b : StoreMap) : List String → Except String Bool
  | [] => .ok true
  | k :: rest =>
    match smLookup a k, smLookup b k with
    | some ea, some eb =>
      if Overlay.eq ea eb then storeEqLoop a b rest else .ok false
    | _, _ => .error ("KeyError: " ++ k)

/-- `DbBase.__eq__` (dbbase.py, lines 109-113). -/
def DbBase.eq (a b : StoreMap) : Except String Bool :=
  storeEqLoop a b (dedupKeys (smKeys a ++ smKeys b) [])

/-- A fetched document body: either text that fails `ET.fromstring`
(`malformed`) or a well-formed document with its root element. -/
inductive XBody where
  | malformed (raw : String)
  | wellFormed (root : XElem)

/-- The errors `DbBase.read` can raise: `BrokenOverlayCatalog` out of the
XML parser (with the origin it names), or an overlay-construction raise. -/
inductive ReadErr where
  | brokenCatalog (origin : String)
  | overlayErr (e : OvErr)
deriving DecidableEq

/-- The overlay-definition nodes of a document, in processing order:
`document.findall('overlay') + document.findall('repo')`. -/
def docNodes (root : XElem) : List XElem :=
  xfindall "overlay" root.children ++ xfindall "repo" root.children

/-- The loop of `DbBase.read`: construct each node's entity and assign it
into the mapping (later nodes overwrite earlier ones of the same name). -/
def readNodes (ignore : Nat) : List XElem → StoreMap → Except ReadErr StoreMap
  | [], s => .ok s
  | node :: rest, s =>
    match Overlay.from_xml node ignore with
    | .error e => .error (.overlayErr e)
    | .ok (ovl, _) => readNodes ignore rest (smInsert s ovl.name ovl)

/-- `DbBase.read` on an already-parsed document tree (dbbase.py,
lines 157-170). -/
def DbBase.readDoc (ignore : Nat) (root : XElem) (s : StoreMap) : Except ReadErr StoreMap :=
  readNodes ignore (docNodes root) s

/-- `DbBase.read` (dbbase.py, lines 142-170): `ET.fromstring` then the
node loop; a malformed text raises `BrokenOverlayCatalog` naming the
origin. -/
def DbBase.read (ignore : Nat) (body : XBody) (origin : String) (s : StoreMap) :
    Except ReadErr StoreMap :=
  match body with
  | .malformed _ => .error (.brokenCatalog origin)
  | .wellFormed root => DbBase.readDoc ignore root s

/-- `DbBase.write` (dbbase.py, lines 200-236) at tree level: a
`repositories` root holding `to_xml` of every entity, in mapping order
(`indent` only adds inter-element whitespace, which `strip_text`
discards on re-parsing). -/
def DbBase.write (s : StoreMap) : XElem :=
  ⟨"repositories", [("version", "1.0")], "", (smValues s).map Overlay.to_xml⟩

/-- `UnknownOverlayException` together with the known-overlay debug output
`DbBase.select` emits beside it. -/
structure UnknownOverlay where
  repo_name : String
  known : List String
deriving DecidableEq

/-- `DbBase.select` (dbbase.py, lines 238-257): the entity, or the
unknown-overlay condition naming the requested name and the known names
(`name in self.overlays.keys()` is exactly `smLookup` succeeding). -/
def DbBase.select (s : StoreMap) (overlay : String) : Except UnknownOverlay Overlay :=
  match smLookup s overlay with
  | some e => .ok e
  | none => .error ⟨overlay, smKeys s⟩

/-! ## Remote catalog cache (`layman/db.py`, `RemoteDB.cache`)

Per-URL state machine over an explicit filesystem. The md5-based
`RemoteDB.filepath` is kept abstract as a function parameter `fp`
(`filepath(url) = config['cache'] + '_' + md5(url).hexdigest()`); the
content file is `fp url ++ ".xml"`, the sidecar `fp url ++ ".timestamp"`.
Successful file writes are assumed (a failed write raises `IOError` in
the code; no claim depends on it). -/

/-- A cache file: the content cache holds a fetched body, the sidecar a
timestamp. -/
inductive FsEntry where
  | content (b : XBody)
  | stamp (t : String)

/-- The cache directory contents, path to file. -/
abbrev FS := List (String × FsEntry)

/-- Read a file. -/
def fsLookup (fs : FS) (p : String) : Option FsEntry :=
  match fs with
  | [] => none
  | kv :: rest => if kv.1 = p then some kv.2 else fsLookup rest p

/-- Write (create or overwrite) a file. -/
def fsWrite (fs : FS) (p : String) (v : FsEntry) : FS :=
  match fs with
  | [] => [(p, v)]
  | kv :: rest => if kv.1 = p then (p, v) :: rest else kv :: fsWrite rest p v

/-- What `urllib2` reports for one URL on this run: not-modified (HTTP
304), another HTTP error, a transport `IOError`, or a success with the
`last-modified` and `date` headers and the body. -/
inductive UrlResponse where
  | http304
  | httpError (code : Nat)
  | ioError (msg : String)
  | success (lastModifiedHdr : Option String) (dateHdr : Option String) (body : XBody)

/-- The content cache path for a URL. -/
def mpathOf (fp : String → String) (url : String) : String := fp url ++ ".xml"

/-- The timestamp sidecar path for a URL. -/
def tpathOf (fp : String → String) (url : String) : String := fp url ++ ".timestamp"

/-- `RemoteDB.check_path` on `[mpath]` (db.py, lines 403-417): fails only
when the file exists and is not writable; `ro` is the set of non-writable
paths. -/
def RemoteDB.check_path (ro : List String) (fs : FS) (p : String) : Bool :=
  !((fsLookup fs p).isSome && ro.contains p)

/-- The running state of one `RemoteDB.cache` invocation: the in-memory
store `self.read` merges into, the filesystem, the `has_updates` flag,
and the pending raise (once set, the remaining URLs are never reached). -/
structure CacheState where
  store : StoreMap
  fs : FS
  hasUpdates : Bool
  error : Option String

/-- One iteration of the URL loop of `RemoteDB.cache` (db.py,
lines 302-390): permission check, conditional fetch dispatch, then
validate-before-commit — `self.read` on the fetched body happens before
any write; only a parsed body is committed to the content file and (when
a `last-modified` or `date` header was captured) the sidecar. -/
def RemoteDB.cacheStep (fp : String → String) (ro : List String)
    (resp : String → UrlResponse) (ignore : Nat) (st : CacheState) (url : String) :
    CacheState :=
  match st.error with
  | some _ => st
  | none =>
    if !(RemoteDB.check_path ro st.fs (mpathOf fp url)) then st
    else
      match resp url with
      | .http304 => st
      | .httpError _ => st
      | .ioError _ => st
      | .success lm dt body =>
        match DbBase.read ignore body url st.store with
        | .error _ =>
          { st with error := some ("Failed to parse the overlays list fetched from " ++ url) }
        | .ok store' =>
          { store := store'
            fs := (match lm.orElse (fun _ => dt) with
                   | some t => fsWrite (fsWrite st.fs (mpathOf fp url) (.content body))
                                 (tpathOf fp url) (.stamp t)
                   | none => fsWrite st.fs (mpathOf fp url) (.content body))
            hasUpdates := true
            error := none }

/-- `RemoteDB.cache`: the URL loop, `has_updates` starting `False`. -/
def RemoteDB.cache (fp : String → String) (ro : List String)
    (resp : String → UrlResponse) (ignore : Nat) (urls : List String)
    (store : StoreMap) (fs : FS) : CacheState :=
  urls.foldl (RemoteDB.cacheStep fp ro resp ignore) ⟨store, fs, false, none⟩

/-! ## Helper lemmas: the `Overlay.add` loop -/

theorem addLoop_success (tryAdd : Source → AddOutcome) (orig : List Source) :
    ∀ (pre : List Source) (s : Source) (post : List Source) (res : Int) (warns : List String),
      (∀ p ∈ pre, tryAdd p ≠ .returns 0) → tryAdd s = .returns 0 →
      ∃ w, addLoop tryAdd orig (pre ++ s :: post) res warns = (0, [s], w) := by
  intro pre
  induction pre with
  | nil =>
    intro s post res warns _ hs
    refine ⟨warns, ?_⟩
    simp [addLoop, hs]
  | cons p pre ih =>
    intro s post res warns hpre hs
    have hp : tryAdd p ≠ .returns 0 := hpre p (by simp)
    cases hcase : tryAdd p with
    | returns c =>
      have hc : ¬ (c = 0) := by
        intro h; subst h; exact hp hcase
      simp only [List.cons_append, addLoop, hcase, if_neg hc]
      exact ih s post c warns (fun q hq => hpre q (by simp [hq])) hs
    | raisesExc m =>
      simp only [List.cons_append, addLoop, hcase]
      exact ih s post res (warns ++ [m]) (fun q hq => hpre q (by simp [hq])) hs

theorem addLoop_allfail (tryAdd : Source → AddOutcome) (orig : List Source) :
    ∀ (l : List Source) (res : Int) (warns : List String),
      l ≠ [] → (∀ s ∈ l, ∃ c, tryAdd s = .returns c ∧ c ≠ 0) →
      ∀ slast c, l.getLast? = some slast → tryAdd slast = .returns c →
      addLoop tryAdd orig l res warns = (c, orig, warns) := by
  intro l
  induction l with
  | nil => intro res warns h; exact absurd rfl h
  | cons s rest ih =>
    intro res warns _ hall slast c hlast hret
    obtain ⟨c0, hc0, hc0ne⟩ := hall s (by simp)
    cases rest with
    | nil =>
      simp only [List.getLast?_singleton, Option.some.injEq] at hlast
      subst hlast
      rw [hc0] at hret
      cases hret
      simp [addLoop, hc0, hc0ne]
    | cons r rs =>
      have hlast' : (r :: rs).getLast? = some slast := by
        rw [← hlast]; simp [List.getLast?_cons_cons]
      simp only [addLoop, hc0, if_neg hc0ne]
      exact ih c0 warns (by simp) (fun q hq => hall q (by simp [hq])) slast c hlast' hret

theorem addLoop_allraise (tryAdd : Source → AddOutcome) (orig : List Source) :
    ∀ (l : List Source) (res : Int) (warns : List String),
      (∀ s ∈ l, ∃ m, tryAdd s = .raisesExc m) →
      ∃ ws, addLoop tryAdd orig l res warns = (res, orig, warns ++ ws) ∧
        ws.length = l.length := by
  intro l
  induction l with
  | nil => intro res warns _; exact ⟨[], by simp [addLoop], rfl⟩
  | cons s rest ih =>
    intro res warns hall
    obtain ⟨m, hm⟩ := hall s (by simp)
    obtain ⟨ws, hws, hlen⟩ := ih res (warns ++ [m]) (fun q hq => hall q (by simp [hq]))
    refine ⟨[m] ++ ws, ?_, by simp [hlen]⟩
    simp only [addLoop, hm, hws, List.append_assoc]

/-- C1: `Overlay.add` tries the source candidates in declared order; the
first candidate whose `add` returns status 0 has the source list truncated
to exactly it and the call returns 0; if every candidate returns a
non-zero status, the call returns the status of the last candidate and
the source list is left untruncated. -/
theorem c1_multi_source_fallback (tryAdd : Source → AddOutcome) (o : Overlay)
    (hne : o.sources ≠ []) :
    (∀ (pre : List Source) (s : Source) (post : List Source),
       o.sources = pre ++ s :: post →
       (∀ p ∈ pre, tryAdd p ≠ .returns 0) → tryAdd s = .returns 0 →
       (Overlay.add tryAdd o).1 = 0 ∧ (Overlay.add tryAdd o).2.1.sources = [s]) ∧
    ((∀ s ∈ o.sources, ∃ c, tryAdd s = .returns c ∧ c ≠ 0) →
       ∀ slast c, o.sources.getLast? = some slast → tryAdd slast = .returns c →
       (Overlay.add tryAdd o).1 = c ∧
       (Overlay.add tryAdd o).2.1.sources = o.sources) := by
  constructor
  · intro pre s post hsplit hpre hs
    obtain ⟨w, hw⟩ := addLoop_success tryAdd o.sources pre s post 1 [] hpre hs
    rw [hsplit] at hw
    rw [Overlay.add, hsplit, hw]
    exact ⟨rfl, rfl⟩
  · intro hall slast c hlast hret
    have h := addLoop_allfail tryAdd o.sources o.sources 1 [] hne hall slast c hlast hret
    rw [Overlay.add, h]
    exact ⟨rfl, rfl⟩

/-- Fixtures for the witnesses: a git source, an rsync source, an overlay
declaring both. -/
def srcGit : Source := ⟨"https://example.org/repo.git", "git"⟩

def srcRsync : Source := ⟨"rsync://example.org/repo", "rsync"⟩

def ovTwo : Overlay :=
  { name := "two", sources := [srcGit, srcRsync], branch := some "",
    subpath := some "", owner_email := some "a@b.c", owner_name := none,
    description := "demo", status := none, quality := "experimental",
    priority := 50, homepage := none, feeds := [], irc := none }

/-- An oracle under which the git source fails with status 2 and the
rsync source succeeds. -/
def tryAddFallback (s : Source) : AddOutcome :=
  if s == srcGit then .returns 2 else .returns 0

theorem c1_multi_source_fallback_witness :
    ovTwo.sources ≠ [] ∧
    (Overlay.add tryAddFallback ovTwo).1 = 0 ∧
    (Overlay.add tryAddFallback ovTwo).2.1.sources = [srcRsync] := by
  refine ⟨by decide, ?_⟩
  exact (c1_multi_source_fallback tryAddFallback ovTwo (by decide)).1
    [srcGit] srcRsync [] rfl (by decide) (by decide)

/-- C10: when a source candidate's `add` raises, `Overlay.add` catches the
exception, logs one warning and proceeds; when every candidate raises,
the call returns status 1 with the source list unmodified and one warning
logged per candidate. -/
theorem c10_add_catches_exceptions (tryAdd : Source → AddOutcome) (o : Overlay)
    (hall : ∀ s ∈ o.sources, ∃ m, tryAdd s = .raisesExc m) :
    (Overlay.add tryAdd o).1 = 1 ∧ (Overlay.add tryAdd o).2.1 = o ∧
    (Overlay.add tryAdd o).2.2.length = o.sources.length := by
  obtain ⟨ws, hws, hlen⟩ := addLoop_allraise tryAdd o.sources o.sources 1 [] hall
  rw [Overlay.add, hws]
  exact ⟨rfl, rfl, by simp [hlen]⟩

/-- An oracle under which every source raises. -/
def tryAddRaise (s : Source) : AddOutcome := .raisesExc ("broken " ++ s.src)

theorem c10_add_catches_exceptions_witness :
    (∀ s ∈ ovTwo.sources, ∃ m, tryAddRaise s = .raisesExc m) ∧
    (Overlay.add tryAddRaise ovTwo).1 = 1 ∧
    (Overlay.add tryAddRaise ovTwo).2.1 = ovTwo ∧
    (Overlay.add tryAddRaise ovTwo).2.2.length = ovTwo.sources.length := by
  refine ⟨fun s _ => ⟨"broken " ++ s.src, rfl⟩, ?_⟩
  exact c10_add_catches_exceptions tryAddRaise ovTwo
    (fun s _ => ⟨"broken " ++ s.src, rfl⟩)

/-- C9: `Overlay.__eq__` compares exactly description, homepage, name,
owner_email, owner_name, priority, status and mutual membership of the
two source lists; quality, feeds, irc, branch and subpath play no role. -/
theorem c9_eq_compared_fields (a b : Overlay) :
    Overlay.eq a b = true ↔
      (a.description = b.description ∧ a.homepage = b.homepage ∧
       a.name = b.name ∧ a.owner_email = b.owner_email ∧
       a.owner_name = b.owner_name ∧ a.priority = b.priority ∧
       a.status = b.status ∧
       ∀ s ∈ a.sources ++ b.sources, s ∈ a.sources ∧ s ∈ b.sources) := by
  simp only [Overlay.eq, sourceIn, Bool.and_eq_true, List.all_eq_true,
    List.any_eq_true, beq_iff_eq, and_assoc]
  constructor
  · rintro ⟨h1, h2, h3, h4, h5, h6, h7, h8⟩
    refine ⟨h1, h2, h3, h4, h5, h6, h7, fun s hs => ?_⟩
    obtain ⟨ha, hb⟩ := h8 s hs
    obtain ⟨ta, hta, hta2⟩ := ha
    obtain ⟨tb, htb, htb2⟩ := hb
    exact ⟨hta2 ▸ hta, htb2 ▸ htb⟩
  · rintro ⟨h1, h2, h3, h4, h5, h6, h7, h8⟩
    refine ⟨h1, h2, h3, h4, h5, h6, h7, fun s hs => ?_⟩
    obtain ⟨ha, hb⟩ := h8 s hs
    exact ⟨⟨s, ha, rfl⟩, ⟨s, hb, rfl⟩⟩

/-! ## Helper lemmas: store mapping -/

theorem smLookup_insert (s : StoreMap) (k : String) (v : Overlay) (j : String) :
    smLookup (smInsert s k v) j = if k = j then some v else smLookup s j := by
  induction s with
  | nil =>
    by_cases h : k = j
    · simp [smInsert, smLookup, h]
    · simp [smInsert, smLookup, h]
  | cons kv rest ih =>
    by_cases hk : kv.1 = k
    · by_cases hj : k = j
      · simp [smInsert, smLookup, hk, hj]
      · have hkvj : ¬ (kv.1 = j) := by rw [hk]; exact hj
        simp [smInsert, smLookup, hk, hj, hkvj]
    · simp only [smInsert, if_neg hk, smLookup]
      rw [ih]
      by_cases hj : kv.1 = j
      · have hkj : ¬ (k = j) := fun h => hk (hj.trans h.symm)
        simp [hj, hkj]
      · simp [hj]

/-- The name-keyed invariant: every mapping entry's entity carries the key
as its `name` (true of every store built by `read`). -/
def NameKeyed (s : StoreMap) : Prop :=
  ∀ k e, smLookup s k = some e → e.name = k

theorem nameKeyed_empty : NameKeyed smEmpty := by
  intro k e h
  simp [smEmpty, smLookup] at h

theorem nameKeyed_insert (s : StoreMap) (ov : Overlay) (h : NameKeyed s) :
    NameKeyed (smInsert s ov.name ov) := by
  intro k e hk
  rw [smLookup_insert] at hk
  by_cases hn : ov.name = k
  · rw [if_pos hn] at hk
    cases hk
    exact hn
  · rw [if_neg hn] at hk
    exact h k e hk

theorem readNodes_nameKeyed (ignore : Nat) :
    ∀ (nodes : List XElem) (s s' : StoreMap), NameKeyed s →
      readNodes ignore nodes s = .ok s' → NameKeyed s' := by
  intro nodes
  induction nodes with
  | nil =>
    intro s s' h heq
    simp only [readNodes] at heq
    cases heq
    exact h
  | cons node rest ih =>
    intro s s' h heq
    simp only [readNodes] at heq
    cases hx : Overlay.from_xml node ignore with
    | error e => rw [hx] at heq; cases heq
    | ok pair =>
      rw [hx] at heq
      exact ih _ _ (nameKeyed_insert s pair.1 h) heq

theorem smKeys_lookup (s : StoreMap) (k : String) :
    k ∈ smKeys s ↔ (smLookup s k).isSome := by
  induction s with
  | nil => simp [smKeys, smLookup]
  | cons kv rest ih =>
    by_cases h : kv.1 = k
    · simp [smKeys, smLookup, h]
    · simp only [smKeys, List.map_cons, List.mem_cons, smLookup, if_neg h]
      rw [← smKeys]
      constructor
      · rintro (hc | hc)
        · exact absurd hc.symm h
        · exact ih.mp hc
      · intro hc
        exact Or.inr (ih.mpr hc)

/-- C8: after a load, `select` on a present name returns the stored entity
and its `name` field equals the lookup key; `select` on an absent name
raises the unknown-overlay condition naming the requested name and the
known names. -/
theorem c8_select_contract (ignore : Nat) (root : XElem) (s : StoreMap)
    (hload : DbBase.readDoc ignore root smEmpty = .ok s) (name : String) :
    (name ∈ smKeys s →
       ∃ e, DbBase.select s name = .ok e ∧ e.name = name ∧ smLookup s name = some e) ∧
    (name ∉ smKeys s →
       DbBase.select s name = .error ⟨name, smKeys s⟩) := by
  have hkeyed : NameKeyed s :=
    readNodes_nameKeyed ignore (docNodes root) smEmpty s nameKeyed_empty hload
  constructor
  · intro hmem
    have hsome := (smKeys_lookup s name).mp hmem
    cases hl : smLookup s name with
    | none => rw [hl] at hsome; cases hsome
    | some e =>
      refine ⟨e, ?_, hkeyed name e hl, rfl⟩
      rw [DbBase.select, hl]
  · intro hmem
    cases hl : smLookup s name with
    | none => rw [DbBase.select, hl]
    | some e =>
      exact absurd ((smKeys_lookup s name).mpr (by rw [hl]; rfl)) hmem

/-- Fixture: the `wrobel-stable` overlay node of the spec's end-to-end
example, and the document holding it. -/
def repoNodeEx : XElem :=
  ⟨"repo", [], "",
   [textElem "name" "wrobel-stable",
    ⟨"source", [("type", "rsync")], "rsync://gunnarwrobel.de/wrobel-stable", []⟩,
    ⟨"owner", [], "", [textElem "email" "nobody@gentoo.org"]⟩,
    textElem "description" "Test"]⟩

def docEx : XElem := ⟨"repositories", [("version", "1.0")], "", [repoNodeEx]⟩

/-- The entity `from_xml` builds from `repoNodeEx`. -/
def ovEx : Overlay :=
  { name := "wrobel-stable",
    sources := [⟨"rsync://gunnarwrobel.de/wrobel-stable", "rsync"⟩],
    branch := some "", subpath := some "",
    owner_email := some "nobody@gentoo.org", owner_name := none,
    description := "Test", status := none, quality := "experimental",
    priority := 50, homepage := none, feeds := [], irc := none }

theorem c8_select_contract_witness :
    DbBase.readDoc 0 docEx smEmpty = .ok [("wrobel-stable", ovEx)] ∧
    (∃ e, DbBase.select [("wrobel-stable", ovEx)] "wrobel-stable" = .ok e ∧
       e.name = "wrobel-stable" ∧
       smLookup [("wrobel-stable", ovEx)] "wrobel-stable" = some e) ∧
    DbBase.select [("wrobel-stable", ovEx)] "absent" =
      .error ⟨"absent", smKeys [("wrobel-stable", ovEx)]⟩ := by
  have hload : DbBase.readDoc 0 docEx smEmpty = .ok [("wrobel-stable", ovEx)] := by rfl
  refine ⟨hload, ?_, ?_⟩
  · exact (c8_select_contract 0 docEx _ hload "wrobel-stable").1 (by decide)
  · exact (c8_select_contract 0 docEx _ hload "absent").2 (by decide)

/-! ## Helper lemmas: `DbBase.__eq__` -/

theorem dedupKeys_mem : ∀ (l seen : List String) (k : String),
    k ∈ dedupKeys l seen ↔ k ∈ l ∧ k ∉ seen := by
  intro l
  induction l with
  | nil => intro seen k; simp [dedupKeys]
  | cons j rest ih =>
    intro seen k
    by_cases hj : j ∈ seen
    · rw [dedupKeys, if_pos (by simpa using hj), ih]
      constructor
      · rintro ⟨hk, hs⟩
        exact ⟨List.mem_cons_of_mem j hk, hs⟩
      · rintro ⟨hk, hs⟩
        rcases List.mem_cons.mp hk with h | h
        · subst h; exact absurd hj hs
        · exact ⟨h, hs⟩
    · rw [dedupKeys, if_neg (by simpa using hj)]
      by_cases hkj : k = j
      · subst hkj
        simp [ih, hj]
      · simp only [List.mem_cons, ih]
        constructor
        · rintro (h | ⟨hk, hs⟩)
          · exact absurd h hkj
          · exact ⟨Or.inr hk, fun hc => hs (Or.inr hc)⟩
        · rintro ⟨hk, hs⟩
          rcases hk with h | h
          · exact absurd h hkj
          · refine Or.inr ⟨h, fun hc => ?_⟩
            rcases hc with h2 | h2
            · exact hkj h2
            · exact hs h2

theorem storeEqLoop_ok (a b : StoreMap) :
    ∀ ks : List String,
      (∀ k ∈ ks, (smLookup a k).isSome ∧ (smLookup b k).isSome) →
      ∃ bl, storeEqLoop a b ks = .ok bl ∧
        (bl = true ↔ ∀ k ∈ ks, ∀ ea eb, smLookup a k = some ea →
           smLookup b k = some eb → Overlay.eq ea eb = true) := by
  intro ks
  induction ks with
  | nil => intro _; exact ⟨true, rfl, by simp⟩
  | cons k rest ih =>
    intro h
    obtain ⟨ha, hb⟩ := h k (by simp)
    cases hla : smLookup a k with
    | none => rw [hla] at ha; cases ha
    | some ea =>
      cases hlb : smLookup b k with
      | none => rw [hlb] at hb; cases hb
      | some eb =>
        obtain ⟨bl, hbl, hiff⟩ := ih (fun q hq => h q (by simp [hq]))
        by_cases heq : Overlay.eq ea eb = true
        · refine ⟨bl, ?_, ?_⟩
          · simp only [storeEqLoop, hla, hlb]
            rw [if_pos heq, hbl]
          · rw [hiff]
            constructor
            · intro hrest q hq ea' eb' hqa hqb
              rcases List.mem_cons.mp hq with hqk | hqr
              · subst hqk
                rw [hla] at hqa
                rw [hlb] at hqb
                cases hqa; cases hqb
                exact heq
              · exact hrest q hqr ea' eb' hqa hqb
            · intro hall q hq ea' eb' hqa hqb
              exact hall q (by simp [hq]) ea' eb' hqa hqb
        · refine ⟨false, ?_, ?_⟩
          · simp only [storeEqLoop, hla, hlb]
            rw [if_neg heq]
          · simp only [Bool.false_eq_true, false_iff]
            intro hall
            exact heq (hall k (by simp) ea eb hla hlb)

theorem storeEqLoop_missing (a b : StoreMap)
    (hshared : ∀ k ea eb, smLookup a k = some ea → smLookup b k = some eb →
       Overlay.eq ea eb = true) :
    ∀ (ks : List String) (x : String), x ∈ ks →
      (smLookup a x = none ∨ smLookup b x = none) →
      ∃ msg, storeEqLoop a b ks = .error msg := by
  intro ks
  induction ks with
  | nil => intro x hx; simp at hx
  | cons k rest ih =>
    intro x hx hmiss
    cases hla : smLookup a k with
    | none => exact ⟨"KeyError: " ++ k, by simp only [storeEqLoop, hla]⟩
    | some ea =>
      cases hlb : smLookup b k with
      | none => exact ⟨"KeyError: " ++ k, by simp only [storeEqLoop, hla, hlb]⟩
      | some eb =>
        have heq := hshared k ea eb hla hlb
        have hxr : x ∈ rest := by
          rcases List.mem_cons.mp hx with h | h
          · subst h
            rcases hmiss with h | h
            · rw [hla] at h; cases h
            · rw [hlb] at h; cases h
          · exact h
        obtain ⟨msg, hmsg⟩ := ih x hxr hmiss
        refine ⟨msg, ?_⟩
        simp only [storeEqLoop, hla, hlb]
        rw [if_pos heq]
        exact hmsg

theorem mem_eqKeys_of_isSome (a b : StoreMap) (k : String)
    (h : (smLookup a k).isSome ∨ (smLookup b k).isSome) :
    k ∈ dedupKeys (smKeys a ++ smKeys b) [] := by
  rw [dedupKeys_mem]
  refine ⟨?_, by simp⟩
  rw [List.mem_append, smKeys_lookup, smKeys_lookup]
  exact h

/-- C7 (amended): for stores with identical key sets, `DbBase.__eq__`
returns `True` iff every shared name maps to equal entities; when some
name is present in exactly one store and every shared name maps to equal
entities, the comparison raises a missing-key error — but an unequal
shared entity reached earlier in the key iteration makes it return
`False` instead (the counterexample). -/
theorem c7_store_eq (a b : StoreMap) :
    ((∀ k, (smLookup a k).isSome ↔ (smLookup b k).isSome) →
       ∃ bl, DbBase.eq a b = .ok bl ∧
         (bl = true ↔ ∀ k ea eb, smLookup a k = some ea →
            smLookup b k = some eb → Overlay.eq ea eb = true)) ∧
    ((∀ k ea eb, smLookup a k = some ea → smLookup b k = some eb →
        Overlay.eq ea eb = true) →
       ∀ x, (smLookup a x = none ∨ smLookup b x = none) →
         ((smLookup a x).isSome ∨ (smLookup b x).isSome) →
         ∃ msg, DbBase.eq a b = .error msg) := by
  constructor
  · intro hsame
    have hboth : ∀ k ∈ dedupKeys (smKeys a ++ smKeys b) [],
        (smLookup a k).isSome ∧ (smLookup b k).isSome := by
      intro k hk
      rw [dedupKeys_mem] at hk
      rcases List.mem_append.mp hk.1 with h | h
      · have := (smKeys_lookup a k).mp h
        exact ⟨this, (hsame k).mp this⟩
      · have := (smKeys_lookup b k).mp h
        exact ⟨(hsame k).mpr this, this⟩
    obtain ⟨bl, hbl, hiff⟩ := storeEqLoop_ok a b _ hboth
    refine ⟨bl, hbl, hiff.trans ⟨?_, ?_⟩⟩
    · intro hall k ea eb hka hkb
      exact hall k (mem_eqKeys_of_isSome a b k (Or.inl (by rw [hka]; rfl))) ea eb hka hkb
    · intro hall k _ ea eb hka hkb
      exact hall k ea eb hka hkb
  · intro hshared x hmiss hsome
    exact storeEqLoop_missing a b hshared _ x (mem_eqKeys_of_isSome a b x hsome) hmiss

/-- The example entity with a different priority (unequal to `ovEx`). -/
def ovExP : Overlay := { ovEx with priority := 10 }

/-- C7 counterexample: `{wrobel-stable, two}` versus `{wrobel-stable}` —
the name `two` is present in exactly one store, yet `__eq__` returns
`False` (no raise), because the shared key `wrobel-stable` maps to
unequal entities and is visited first. -/
theorem c7_store_eq_counterexample :
    (smLookup [("wrobel-stable", ovEx), ("two", ovTwo)] "two").isSome = true ∧
    smLookup [("wrobel-stable", ovExP)] "two" = none ∧
    DbBase.eq [("wrobel-stable", ovEx), ("two", ovTwo)] [("wrobel-stable", ovExP)] =
      .ok false := by
  exact ⟨rfl, rfl, rfl⟩

theorem c7_store_eq_witness :
    ((∀ k, (smLookup [("wrobel-stable", ovEx)] k).isSome ↔
        (smLookup [("wrobel-stable", ovExP)] k).isSome) ∧
      ∃ bl, DbBase.eq [("wrobel-stable", ovEx)] [("wrobel-stable", ovExP)] = .ok bl ∧
        (bl = true ↔ ∀ k ea eb, smLookup [("wrobel-stable", ovEx)] k = some ea →
           smLookup [("wrobel-stable", ovExP)] k = some eb → Overlay.eq ea eb = true)) ∧
    ∃ msg, DbBase.eq [("wrobel-stable", ovEx), ("two", ovTwo)]
        [("wrobel-stable", ovEx)] = .error msg := by
  constructor
  · have hsame : ∀ k, (smLookup [("wrobel-stable", ovEx)] k).isSome ↔
        (smLookup [("wrobel-stable", ovExP)] k).isSome := by
      intro k
      simp only [smLookup]
      by_cases h : "wrobel-stable" = k <;> simp [h]
    exact ⟨hsame, (c7_store_eq [("wrobel-stable", ovEx)] [("wrobel-stable", ovExP)]).1 hsame⟩
  · refine (c7_store_eq [("wrobel-stable", ovEx), ("two", ovTwo)]
      [("wrobel-stable", ovEx)]).2 ?_ "two" (Or.inr rfl) (Or.inl rfl)
    intro k ea eb hka hkb
    by_cases h : "wrobel-stable" = k
    · simp only [smLookup, if_pos h] at hka hkb
      cases hka
      cases hkb
      decide
    · simp [smLookup, h] at hkb

/-! ## Helper lemmas: `DbBase.read` merge semantics -/

/-- The entities a document's nodes parse to, in processing order (the
store-independent view of the `read` loop). -/
def parseNodes (ignore : Nat) : List XElem → Except ReadErr (List Overlay)
  | [] => .ok []
  | node :: rest =>
    match Overlay.from_xml node ignore with
    | .error e => .error (.overlayErr e)
    | .ok (ovl, _) =>
      match parseNodes ignore rest with
      | .error e => .error e
      | .ok l => .ok (ovl :: l)

/-- The entities parsed from one document. -/
def docOverlays (ignore : Nat) (root : XElem) : Except ReadErr (List Overlay) :=
  parseNodes ignore (docNodes root)

/-- Assign a list of entities into the mapping in order. -/
def insertAll (s : StoreMap) : List Overlay → StoreMap
  | [] => s
  | ov :: rest => insertAll (smInsert s ov.name ov) rest

/-- The last entity of the list carrying a given name (the one whose
assignment wins). -/
def lastNamed (n : String) (l : List Overlay) : Option Overlay :=
  (l.filter (fun e => e.name == n)).getLast?

theorem readNodes_insertAll (ignore : Nat) :
    ∀ (nodes : List XElem) (l : List Overlay) (s : StoreMap),
      parseNodes ignore nodes = .ok l →
      readNodes ignore nodes s = .ok (insertAll s l) := by
  intro nodes
  induction nodes with
  | nil =>
    intro l s h
    simp only [parseNodes] at h
    cases h
    rfl
  | cons node rest ih =>
    intro l s h
    simp only [parseNodes] at h
    cases hx : Overlay.from_xml node ignore with
    | error e => rw [hx] at h; cases h
    | ok pair =>
      rw [hx] at h
      cases hp : parseNodes ignore rest with
      | error e => rw [hp] at h; cases h
      | ok l' =>
        rw [hp] at h
        cases h
        simp only [readNodes, hx]
        exact ih l' (smInsert s pair.1.name pair.1) hp

theorem lookup_insertAll :
    ∀ (l : List Overlay) (s : StoreMap) (n : String),
      smLookup (insertAll s l) n =
        (match lastNamed n l with
         | some e => some e
         | none => smLookup s n) := by
  intro l
  induction l with
  | nil => intro s n; rfl
  | cons ov rest ih =>
    intro s n
    rw [insertAll, ih]
    by_cases hn : ov.name = n
    · have hfilter : List.filter (fun e => e.name == n) (ov :: rest)
          = ov :: List.filter (fun e => e.name == n) rest := by
        simp [List.filter_cons, hn]
      cases hf : List.filter (fun e => e.name == n) rest with
      | nil =>
        rw [lastNamed, hf]
        rw [lastNamed, hfilter, hf]
        simp only [List.getLast?_nil, List.getLast?_singleton]
        rw [smLookup_insert, if_pos hn]
      | cons f fs =>
        cases hg : (f :: fs).getLast? with
        | none => simp at hg
        | some e =>
          rw [lastNamed, hf, hg]
          rw [lastNamed, hfilter, hf, List.getLast?_cons_cons, hg]
    · have hfilter : List.filter (fun e => e.name == n) (ov :: rest)
          = List.filter (fun e => e.name == n) rest := by
        simp [List.filter_cons, hn]
      rw [lastNamed, lastNamed, hfilter]
      cases hf : (List.filter (fun e => e.name == n) rest).getLast? with
      | none => rw [smLookup_insert, if_neg hn]
      | some e => rfl

/-- C4: loading a second document after a first leaves every overlay name
defined by the second document mapped to the entity parsed from the
second document (its last node of that name), while names the second
document does not define keep the first load's entities. -/
theorem c4_last_document_wins (ignore : Nat) (d1 d2 : XElem) (s1 s2 : StoreMap)
    (l2 : List Overlay)
    (_h1 : DbBase.readDoc ignore d1 smEmpty = .ok s1)
    (h2 : DbBase.readDoc ignore d2 s1 = .ok s2)
    (hl : docOverlays ignore d2 = .ok l2) (n : String) :
    (∀ e2, lastNamed n l2 = some e2 → smLookup s2 n = some e2) ∧
    (lastNamed n l2 = none → smLookup s2 n = smLookup s1 n) := by
  have hs2 : s2 = insertAll s1 l2 := by
    have := readNodes_insertAll ignore (docNodes d2) l2 s1 hl
    rw [DbBase.readDoc] at h2
    rw [this] at h2
    cases h2
    rfl
  subst hs2
  constructor
  · intro e2 he2
    rw [lookup_insertAll, he2]
  · intro hnone
    rw [lookup_insertAll, hnone]

/-- Fixtures for the merge witness: two documents both defining overlay
`x` (with different descriptions), the first also defining `y`. -/
def nodeNamed (n desc : String) : XElem :=
  ⟨"repo", [], "",
   [textElem "name" n,
    ⟨"source", [("type", "git")], "https://example.org/" ++ n ++ ".git", []⟩,
    ⟨"owner", [], "", [textElem "email" "nobody@example.org"]⟩,
    textElem "description" desc]⟩

def docD1 : XElem :=
  ⟨"repositories", [("version", "1.0")], "", [nodeNamed "x" "first", nodeNamed "y" "kept"]⟩

def docD2 : XElem :=
  ⟨"repositories", [("version", "1.0")], "", [nodeNamed "x" "second"]⟩

/-- The entity `from_xml` builds from `nodeNamed n desc`. -/
def ovNamed (n desc : String) : Overlay :=
  { name := n,
    sources := [⟨"https://example.org/" ++ n ++ ".git", "git"⟩],
    branch := some "", subpath := some "",
    owner_email := some "nobody@example.org", owner_name := none,
    description := desc, status := none, quality := "experimental",
    priority := 50, homepage := none, feeds := [], irc := none }

theorem c4_last_document_wins_witness :
    DbBase.readDoc 1 docD1 smEmpty = .ok [("x", ovNamed "x" "first"), ("y", ovNamed "y" "kept")] ∧
    DbBase.readDoc 1 docD2 [("x", ovNamed "x" "first"), ("y", ovNamed "y" "kept")] =
      .ok [("x", ovNamed "x" "second"), ("y", ovNamed "y" "kept")] ∧
    docOverlays 1 docD2 = .ok [ovNamed "x" "second"] ∧
    smLookup [("x", ovNamed "x" "second"), ("y", ovNamed "y" "kept")] "x" =
      some (ovNamed "x" "second") ∧
    smLookup [("x", ovNamed "x" "second"), ("y", ovNamed "y" "kept")] "y" =
      smLookup [("x", ovNamed "x" "first"), ("y", ovNamed "y" "kept")] "y" := by
  refine ⟨rfl, rfl, rfl, ?_, ?_⟩
  · exact (c4_last_document_wins 1 docD1 docD2 _ _ _ rfl rfl rfl "x").1
      (ovNamed "x" "second") rfl
  · exact (c4_last_document_wins 1 docD1 docD2 _ _ _ rfl rfl rfl "y").2 rfl

/-! ## Helper lemmas: the remote cache -/

theorem fsLookup_write (fs : FS) (p : String) (v : FsEntry) (q : String) :
    fsLookup (fsWrite fs p v) q = if p = q then some v else fsLookup fs q := by
  induction fs with
  | nil =>
    by_cases h : p = q
    · simp [fsWrite, fsLookup, h]
    · simp [fsWrite, fsLookup, h]
  | cons kv rest ih =>
    by_cases hk : kv.1 = p
    · by_cases hj : p = q
      · simp [fsWrite, fsLookup, hk, hj]
      · have hkvj : ¬ (kv.1 = q) := by rw [hk]; exact hj
        simp [fsWrite, fsLookup, hk, hj, hkvj]
    · simp only [fsWrite, if_neg hk, fsLookup]
      rw [ih]
      by_cases hj : kv.1 = q
      · have hkj : ¬ (p = q) := fun h => hk (hj.trans h.symm)
        simp [hj, hkj]
      · simp [hj]

/-- Distinct URLs' cache paths never collide (the md5 naming scheme);
each URL's clause guards its two written paths against every later URL's
content path and content/sidecar paths. -/
def pathsSep (fp : String → String) : List String → Bool
  | [] => true
  | u :: rest =>
    rest.all (fun v =>
      (mpathOf fp u != mpathOf fp v) && (tpathOf fp u != mpathOf fp v) &&
      (mpathOf fp u != tpathOf fp v) && (tpathOf fp u != tpathOf fp v)) &&
    pathsSep fp rest

theorem mpath_ne_tpath (fp : String → String) (url : String) :
    mpathOf fp url ≠ tpathOf fp url := by
  intro h
  have hd : (mpathOf fp url).data = (tpathOf fp url).data := by rw [h]
  rw [mpathOf, tpathOf] at hd
  simp only [String.data_append] at hd
  have := List.append_cancel_left hd
  simp at this

/-- Whether the `read` of a fetched body succeeds is independent of the
store it merges into; this is the store-independent parse check. -/
def bodyParses (ignore : Nat) (body : XBody) : Bool :=
  match body with
  | .malformed _ => false
  | .wellFormed root =>
    match parseNodes ignore (docNodes root) with
    | .ok _ => true
    | .error _ => false

theorem readNodes_parse_error (ignore : Nat) :
    ∀ (nodes : List XElem) (e : ReadErr) (s : StoreMap),
      parseNodes ignore nodes = .error e → readNodes ignore nodes s = .error e := by
  intro nodes
  induction nodes with
  | nil => intro e s h; simp [parseNodes] at h
  | cons node rest ih =>
    intro e s h
    simp only [parseNodes] at h
    cases hx : Overlay.from_xml node ignore with
    | error e' =>
      rw [hx] at h
      cases h
      simp [readNodes, hx]
    | ok pair =>
      rw [hx] at h
      cases hp : parseNodes ignore rest with
      | error e' =>
        rw [hp] at h
        cases h
        simp only [readNodes, hx]
        exact ih e _ hp
      | ok l => rw [hp] at h; cases h

theorem read_ok_of_bodyParses (ignore : Nat) (body : XBody) (url : String) (s : StoreMap)
    (h : bodyParses ignore body = true) :
    ∃ s', DbBase.read ignore body url s = .ok s' := by
  cases body with
  | malformed raw => simp [bodyParses] at h
  | wellFormed root =>
    simp only [bodyParses] at h
    cases hp : parseNodes ignore (docNodes root) with
    | error e => rw [hp] at h; cases h
    | ok l =>
      exact ⟨insertAll s l, readNodes_insertAll ignore (docNodes root) l s hp⟩

theorem read_error_of_not_bodyParses (ignore : Nat) (body : XBody) (url : String)
    (s : StoreMap) (h : bodyParses ignore body = false) :
    ∃ e, DbBase.read ignore body url s = .error e := by
  cases body with
  | malformed raw => exact ⟨.brokenCatalog url, rfl⟩
  | wellFormed root =>
    simp only [bodyParses] at h
    cases hp : parseNodes ignore (docNodes root) with
    | error e =>
      exact ⟨e, readNodes_parse_error ignore (docNodes root) e s hp⟩
    | ok l => rw [hp] at h; cases h

theorem bodyParses_of_read_ok (ignore : Nat) (body : XBody) (url : String)
    (s s' : StoreMap) (h : DbBase.read ignore body url s = .ok s') :
    bodyParses ignore body = true := by
  cases hb : bodyParses ignore body with
  | false =>
    obtain ⟨e, he⟩ := read_error_of_not_bodyParses ignore body url s hb
    rw [he] at h
    cases h
  | true => rfl

/-! Step equations for `RemoteDB.cacheStep`. -/

theorem cacheStep_frozen (fp : String → String) (ro : List String)
    (resp : String → UrlResponse) (ignore : Nat) (st : CacheState) (url : String)
    (e : String) (h : st.error = some e) :
    RemoteDB.cacheStep fp ro resp ignore st url = st := by
  simp [RemoteDB.cacheStep, h]

theorem cacheStep_skip_check (fp : String → String) (ro : List String)
    (resp : String → UrlResponse) (ignore : Nat) (st : CacheState) (url : String)
    (h : st.error = none)
    (hc : RemoteDB.check_path ro st.fs (mpathOf fp url) = false) :
    RemoteDB.cacheStep fp ro resp ignore st url = st := by
  simp [RemoteDB.cacheStep, h, hc]

theorem cacheStep_skip_resp (fp : String → String) (ro : List String)
    (resp : String → UrlResponse) (ignore : Nat) (st : CacheState) (url : String)
    (h : st.error = none)
    (hc : RemoteDB.check_path ro st.fs (mpathOf fp url) = true)
    (hr : resp url = .http304 ∨ (∃ c, resp url = .httpError c) ∨
          (∃ m, resp url = .ioError m)) :
    RemoteDB.cacheStep fp ro resp ignore st url = st := by
  rcases hr with hr | ⟨c, hr⟩ | ⟨m, hr⟩ <;> simp [RemoteDB.cacheStep, h, hc, hr]

theorem cacheStep_parse_fail (fp : String → String) (ro : List String)
    (resp : String → UrlResponse) (ignore : Nat) (st : CacheState) (url : String)
    (lm dt : Option String) (body : XBody) (e : ReadErr)
    (h : st.error = none)
    (hc : RemoteDB.check_path ro st.fs (mpathOf fp url) = true)
    (hr : resp url = .success lm dt body)
    (hread : DbBase.read ignore body url st.store = .error e) :
    RemoteDB.cacheStep fp ro resp ignore st url =
      { st with error := some ("Failed to parse the overlays list fetched from " ++ url) } := by
  simp [RemoteDB.cacheStep, h, hc, hr, hread]

theorem cacheStep_commit (fp : String → String) (ro : List String)
    (resp : String → UrlResponse) (ignore : Nat) (st : CacheState) (url : String)
    (lm dt : Option String) (body : XBody) (store' : StoreMap)
    (h : st.error = none)
    (hc : RemoteDB.check_path ro st.fs (mpathOf fp url) = true)
    (hr : resp url = .success lm dt body)
    (hread : DbBase.read ignore body url st.store = .ok store') :
    RemoteDB.cacheStep fp ro resp ignore st url =
      { store := store'
        fs := (match lm.orElse (fun _ => dt) with
               | some t => fsWrite (fsWrite st.fs (mpathOf fp url) (.content body))
                             (tpathOf fp url) (.stamp t)
               | none => fsWrite st.fs (mpathOf fp url) (.content body))
        hasUpdates := true
        error := none } := by
  simp [RemoteDB.cacheStep, h, hc, hr, hread]

theorem cacheStep_fs_outside (fp : String → String) (ro : List String)
    (resp : String → UrlResponse) (ignore : Nat) (st : CacheState) (url : String)
    (p : String) (hm : p ≠ mpathOf fp url) (ht : p ≠ tpathOf fp url) :
    fsLookup (RemoteDB.cacheStep fp ro resp ignore st url).fs p = fsLookup st.fs p := by
  cases herr : st.error with
  | some e => rw [cacheStep_frozen fp ro resp ignore st url e herr]
  | none =>
    cases hc : RemoteDB.check_path ro st.fs (mpathOf fp url) with
    | false => rw [cacheStep_skip_check fp ro resp ignore st url herr hc]
    | true =>
      cases hr : resp url with
      | http304 => rw [cacheStep_skip_resp fp ro resp ignore st url herr hc (Or.inl hr)]
      | httpError c =>
        rw [cacheStep_skip_resp fp ro resp ignore st url herr hc (Or.inr (Or.inl ⟨c, hr⟩))]
      | ioError m =>
        rw [cacheStep_skip_resp fp ro resp ignore st url herr hc (Or.inr (Or.inr ⟨m, hr⟩))]
      | success lm dt body =>
        cases hread : DbBase.read ignore body url st.store with
        | error e =>
          rw [cacheStep_parse_fail fp ro resp ignore st url lm dt body e herr hc hr hread]
        | ok store' =>
          rw [cacheStep_commit fp ro resp ignore st url lm dt body store' herr hc hr hread]
          cases hor : lm.orElse (fun _ => dt) with
          | some t =>
            simp only
            rw [fsLookup_write, if_neg (Ne.symm ht), fsLookup_write, if_neg (Ne.symm hm)]
          | none =>
            simp only
            rw [fsLookup_write, if_neg (Ne.symm hm)]

theorem cacheFold_frozen (fp : String → String) (ro : List String)
    (resp : String → UrlResponse) (ignore : Nat) :
    ∀ (urls : List String) (st : CacheState) (e : String), st.error = some e →
      urls.foldl (RemoteDB.cacheStep fp ro resp ignore) st = st := by
  intro urls
  induction urls with
  | nil => intro st e _; rfl
  | cons u rest ih =>
    intro st e h
    rw [List.foldl_cons, cacheStep_frozen fp ro resp ignore st u e h]
    exact ih st e h

theorem check_path_congr (ro : List String) (fs fs' : FS) (p : String)
    (h : fsLookup fs p = fsLookup fs' p) :
    RemoteDB.check_path ro fs p = RemoteDB.check_path ro fs' p := by
  rw [RemoteDB.check_path, RemoteDB.check_path, h]

theorem exists_mem_cons_split {α : Type} (a : α) (l : List α) (p : α → Prop) :
    (∃ x ∈ a :: l, p x) ↔ p a ∨ ∃ x ∈ l, p x := by
  constructor
  · rintro ⟨x, hx, hp⟩
    rcases List.mem_cons.mp hx with h | h
    · subst h; exact Or.inl hp
    · exact Or.inr ⟨x, h, hp⟩
  · rintro (h | ⟨x, hx, hp⟩)
    · exact ⟨a, by simp, h⟩
    · exact ⟨x, by simp [hx], hp⟩

/-- Whether a URL produces a fresh update on this run, judged against the
initial filesystem: its cache file is writable, the server returns a
success, and the body parses. -/
def freshUpdate (fp : String → String) (ro : List String)
    (resp : String → UrlResponse) (ignore : Nat) (fs0 : FS) (url : String) : Bool :=
  RemoteDB.check_path ro fs0 (mpathOf fp url) &&
    (match resp url with
     | .success _ _ body => bodyParses ignore body
     | _ => false)

theorem cacheFold_c2 (fp : String → String) (ro : List String)
    (resp : String → UrlResponse) (ignore : Nat) (url : String)
    (lm dt : Option String) (body : XBody)
    (hresp : resp url = .success lm dt body)
    (hro : ro.contains (mpathOf fp url) = false)
    (hparse : bodyParses ignore body = false) :
    ∀ (urls : List String), url ∈ urls → pathsSep fp urls = true →
      ∀ st : CacheState, st.error = none →
        ((urls.foldl (RemoteDB.cacheStep fp ro resp ignore) st).error.isSome = true ∧
         fsLookup (urls.foldl (RemoteDB.cacheStep fp ro resp ignore) st).fs
           (mpathOf fp url) = fsLookup st.fs (mpathOf fp url)) := by
  intro urls
  induction urls with
  | nil => intro hmem; simp at hmem
  | cons u rest ih =>
    intro hmem hsep st herr
    simp only [pathsSep, Bool.and_eq_true] at hsep
    obtain ⟨hall, hsep'⟩ := hsep
    rw [List.foldl_cons]
    by_cases hu : u = url
    · subst hu
      have hc : RemoteDB.check_path ro st.fs (mpathOf fp u) = true := by
        rw [RemoteDB.check_path, hro]
        simp
      obtain ⟨e, he⟩ := read_error_of_not_bodyParses ignore body u st.store hparse
      rw [cacheStep_parse_fail fp ro resp ignore st u lm dt body e herr hc hresp he]
      rw [cacheFold_frozen fp ro resp ignore rest _ _ rfl]
      exact ⟨rfl, rfl⟩
    · have hmem' : url ∈ rest := by
        rcases List.mem_cons.mp hmem with h | h
        · exact absurd h.symm hu
        · exact h
      have hpath := List.all_eq_true.mp hall url hmem'
      rw [Bool.and_eq_true, Bool.and_eq_true, Bool.and_eq_true] at hpath
      have hm1 : mpathOf fp url ≠ mpathOf fp u := Ne.symm (by simpa using hpath.1.1.1)
      have hm2 : mpathOf fp url ≠ tpathOf fp u := Ne.symm (by simpa using hpath.1.1.2)
      have hfs : fsLookup (RemoteDB.cacheStep fp ro resp ignore st u).fs (mpathOf fp url)
          = fsLookup st.fs (mpathOf fp url) :=
        cacheStep_fs_outside fp ro resp ignore st u (mpathOf fp url) hm1 hm2
      cases herr' : (RemoteDB.cacheStep fp ro resp ignore st u).error with
      | some e =>
        rw [cacheFold_frozen fp ro resp ignore rest _ e herr']
        refine ⟨?_, hfs⟩
        rw [herr']
        rfl
      | none =>
        obtain ⟨h1, h2⟩ := ih hmem' hsep' _ herr'
        exact ⟨h1, h2.trans hfs⟩

/-- C2: for every configured URL whose fetched body fails to parse (given
a writable cache file), `RemoteDB.cache` raises, and that URL's
previously cached content file keeps its prior contents — the parse
happens before any write. -/
theorem c2_validate_before_commit (fp : String → String) (ro : List String)
    (resp : String → UrlResponse) (ignore : Nat) (urls : List String)
    (store0 : StoreMap) (fs0 : FS) (url : String) (lm dt : Option String) (body : XBody)
    (hmem : url ∈ urls)
    (hsep : pathsSep fp urls = true)
    (hresp : resp url = .success lm dt body)
    (hro : ro.contains (mpathOf fp url) = false)
    (hparse : bodyParses ignore body = false) :
    (RemoteDB.cache fp ro resp ignore urls store0 fs0).error.isSome = true ∧
    fsLookup (RemoteDB.cache fp ro resp ignore urls store0 fs0).fs (mpathOf fp url) =
      fsLookup fs0 (mpathOf fp url) := by
  exact cacheFold_c2 fp ro resp ignore url lm dt body hresp hro hparse urls hmem hsep
    ⟨store0, fs0, false, none⟩ rfl

/-- Fixtures for the cache claims: an abstract cache-path function, a URL
whose fetch yields an unparsable body, and a prior cached content file. -/
def fpEx (u : String) : String := "cache_" ++ u

def priorDoc : XBody := .wellFormed ⟨"repositories", [], "", []⟩

def fs0Ex : FS := [("cache_u1.xml", .content priorDoc)]

def respBad (_ : String) : UrlResponse := .success none none (.malformed "<broken")

theorem c2_validate_before_commit_witness :
    ("u1" ∈ ["u1"] ∧ pathsSep fpEx ["u1"] = true ∧
     respBad "u1" = .success none none (.malformed "<broken") ∧
     List.contains [] (mpathOf fpEx "u1") = false ∧
     bodyParses 0 (.malformed "<broken") = false) ∧
    (RemoteDB.cache fpEx [] respBad 0 ["u1"] [] fs0Ex).error.isSome = true ∧
    fsLookup (RemoteDB.cache fpEx [] respBad 0 ["u1"] [] fs0Ex).fs (mpathOf fpEx "u1") =
      fsLookup fs0Ex (mpathOf fpEx "u1") := by
  refine ⟨⟨by simp, rfl, rfl, rfl, rfl⟩, ?_⟩
  exact c2_validate_before_commit fpEx [] respBad 0 ["u1"] [] fs0Ex "u1" none none
    (.malformed "<broken") (by simp) rfl rfl rfl rfl

theorem cacheFold_updates (fp : String → String) (ro : List String)
    (resp : String → UrlResponse) (ignore : Nat) (fs0 : FS) :
    ∀ (urls : List String), pathsSep fp urls = true →
      ∀ st : CacheState, st.error = none →
        (∀ u ∈ urls, fsLookup st.fs (mpathOf fp u) = fsLookup fs0 (mpathOf fp u)) →
        (urls.foldl (RemoteDB.cacheStep fp ro resp ignore) st).error = none →
        ((urls.foldl (RemoteDB.cacheStep fp ro resp ignore) st).hasUpdates = true ↔
          (st.hasUpdates = true ∨
           ∃ u ∈ urls, freshUpdate fp ro resp ignore fs0 u = true)) := by
  intro urls
  induction urls with
  | nil =>
    intro _ st _ _ _
    simp
  | cons u rest ih =>
    intro hsep st herr hfs hfin
    simp only [pathsSep, Bool.and_eq_true] at hsep
    obtain ⟨hall, hsep'⟩ := hsep
    rw [List.foldl_cons] at hfin ⊢
    have hcheckc : RemoteDB.check_path ro st.fs (mpathOf fp u)
        = RemoteDB.check_path ro fs0 (mpathOf fp u) :=
      check_path_congr ro st.fs fs0 (mpathOf fp u) (hfs u (by simp))
    rw [exists_mem_cons_split]
    cases hc : RemoteDB.check_path ro st.fs (mpathOf fp u) with
    | false =>
      rw [cacheStep_skip_check fp ro resp ignore st u herr hc] at hfin ⊢
      have hfu : freshUpdate fp ro resp ignore fs0 u = false := by
        rw [freshUpdate, ← hcheckc, hc]
        rfl
      rw [ih hsep' st herr (fun v hv => hfs v (by simp [hv])) hfin, hfu]
      simp
    | true =>
      cases hr : resp u with
      | http304 =>
        rw [cacheStep_skip_resp fp ro resp ignore st u herr hc (Or.inl hr)] at hfin ⊢
        have hfu : freshUpdate fp ro resp ignore fs0 u = false := by
          rw [freshUpdate, hr]
          simp
        rw [ih hsep' st herr (fun v hv => hfs v (by simp [hv])) hfin, hfu]
        simp
      | httpError c =>
        rw [cacheStep_skip_resp fp ro resp ignore st u herr hc
          (Or.inr (Or.inl ⟨c, hr⟩))] at hfin ⊢
        have hfu : freshUpdate fp ro resp ignore fs0 u = false := by
          rw [freshUpdate, hr]
          simp
        rw [ih hsep' st herr (fun v hv => hfs v (by simp [hv])) hfin, hfu]
        simp
      | ioError m =>
        rw [cacheStep_skip_resp fp ro resp ignore st u herr hc
          (Or.inr (Or.inr ⟨m, hr⟩))] at hfin ⊢
        have hfu : freshUpdate fp ro resp ignore fs0 u = false := by
          rw [freshUpdate, hr]
          simp
        rw [ih hsep' st herr (fun v hv => hfs v (by simp [hv])) hfin, hfu]
        simp
      | success lm dt body =>
        cases hread : DbBase.read ignore body u st.store with
        | error e =>
          rw [cacheStep_parse_fail fp ro resp ignore st u lm dt body e herr hc hr hread,
            cacheFold_frozen fp ro resp ignore rest _ _ rfl] at hfin
          simp at hfin
        | ok store' =>
          have hstep := cacheStep_commit fp ro resp ignore st u lm dt body store'
            herr hc hr hread
          have herr2 : (RemoteDB.cacheStep fp ro resp ignore st u).error = none := by
            rw [hstep]
          have hupd : (RemoteDB.cacheStep fp ro resp ignore st u).hasUpdates = true := by
            rw [hstep]
          have hfs' : ∀ v ∈ rest,
              fsLookup (RemoteDB.cacheStep fp ro resp ignore st u).fs (mpathOf fp v)
                = fsLookup fs0 (mpathOf fp v) := by
            intro v hv
            have hpath := List.all_eq_true.mp hall v hv
            rw [Bool.and_eq_true, Bool.and_eq_true, Bool.and_eq_true] at hpath
            have hm1 : mpathOf fp v ≠ mpathOf fp u := Ne.symm (by simpa using hpath.1.1.1)
            have hm2 : mpathOf fp v ≠ tpathOf fp u := Ne.symm (by simpa using hpath.1.1.2)
            exact (cacheStep_fs_outside fp ro resp ignore st u (mpathOf fp v) hm1 hm2).trans
              (hfs v (by simp [hv]))
          have hfu : freshUpdate fp ro resp ignore fs0 u = true := by
            rw [freshUpdate, ← hcheckc, hc, hr]
            simp [bodyParses_of_read_ok ignore body u st.store store' hread]
          rw [ih hsep' _ herr2 hfs' hfin, hupd, hfu]
          simp

/-- C5 (amended): a URL answered 304 causes no write at all and is not
counted as an update; a changed resource (success answer, writable cache
file, parsable body) gets its content file written, its sidecar written
exactly when a `last-modified` or `date` header was captured, and counts
as an update; the run reports updates iff some configured URL produced a
fresh update. -/
theorem c5_conditional_cache (fp : String → String) (ro : List String)
    (resp : String → UrlResponse) (ignore : Nat) :
    (∀ st url, st.error = none → resp url = .http304 →
       RemoteDB.cacheStep fp ro resp ignore st url = st) ∧
    (∀ st url lm dt body store', st.error = none →
       resp url = .success lm dt body →
       RemoteDB.check_path ro st.fs (mpathOf fp url) = true →
       DbBase.read ignore body url st.store = .ok store' →
       ((RemoteDB.cacheStep fp ro resp ignore st url).hasUpdates = true ∧
        fsLookup (RemoteDB.cacheStep fp ro resp ignore st url).fs (mpathOf fp url)
          = some (.content body) ∧
        (∀ t, lm.orElse (fun _ => dt) = some t →
           fsLookup (RemoteDB.cacheStep fp ro resp ignore st url).fs (tpathOf fp url)
             = some (.stamp t)) ∧
        (lm.orElse (fun _ => dt) = none →
           fsLookup (RemoteDB.cacheStep fp ro resp ignore st url).fs (tpathOf fp url)
             = fsLookup st.fs (tpathOf fp url)))) ∧
    (∀ urls store0 fs0, pathsSep fp urls = true →
       (RemoteDB.cache fp ro resp ignore urls store0 fs0).error = none →
       ((RemoteDB.cache fp ro resp ignore urls store0 fs0).hasUpdates = true ↔
         ∃ url ∈ urls, freshUpdate fp ro resp ignore fs0 url = true)) := by
  refine ⟨?_, ?_, ?_⟩
  · intro st url herr hr
    cases hc : RemoteDB.check_path ro st.fs (mpathOf fp url) with
    | false => exact cacheStep_skip_check fp ro resp ignore st url herr hc
    | true => exact cacheStep_skip_resp fp ro resp ignore st url herr hc (Or.inl hr)
  · intro st url lm dt body store' herr hr hc hread
    rw [cacheStep_commit fp ro resp ignore st url lm dt body store' herr hc hr hread]
    refine ⟨rfl, ?_, ?_, ?_⟩
    · cases hor : lm.orElse (fun _ => dt) with
      | some t =>
        simp only
        rw [fsLookup_write, if_neg (Ne.symm (mpath_ne_tpath fp url)), fsLookup_write,
          if_pos rfl]
      | none =>
        simp only
        rw [fsLookup_write, if_pos rfl]
    · intro t hor
      rw [hor]
      simp only
      rw [fsLookup_write, if_pos rfl]
    · intro hor
      rw [hor]
      simp only
      rw [fsLookup_write, if_neg (mpath_ne_tpath fp url)]
  · intro urls store0 fs0 hsep hfin
    have h := cacheFold_updates fp ro resp ignore fs0 urls hsep
      ⟨store0, fs0, false, none⟩ rfl (fun _ _ => rfl) hfin
    rw [RemoteDB.cache] at *
    rw [h]
    simp

/-- A response carrying no `last-modified` and no `date` header, with a
parsable (empty) catalog body. -/
def respNoStamp (_ : String) : UrlResponse := .success none none priorDoc

/-- C5 counterexample: a changed resource whose response carries neither a
`last-modified` nor a `date` header is committed and counted as an
update, but its timestamp sidecar is NOT written — refuting "writes both
content file and sidecar". -/
theorem c5_conditional_cache_counterexample :
    respNoStamp "u1" = .success none none priorDoc ∧
    (RemoteDB.cache fpEx [] respNoStamp 0 ["u1"] [] []).hasUpdates = true ∧
    fsLookup (RemoteDB.cache fpEx [] respNoStamp 0 ["u1"] [] []).fs (mpathOf fpEx "u1")
      = some (.content priorDoc) ∧
    fsLookup (RemoteDB.cache fpEx [] respNoStamp 0 ["u1"] [] []).fs (tpathOf fpEx "u1")
      = none := ⟨rfl, rfl, rfl, rfl⟩

/-- A response with a `last-modified` header and a parsable body. -/
def respStamp (_ : String) : UrlResponse :=
  .success (some "Mon, 01 Jan 2024") none priorDoc

def st0Ex : CacheState := ⟨[], [], false, none⟩

def resp304 (_ : String) : UrlResponse := .http304

theorem c5_conditional_cache_witness :
    (st0Ex.error = none ∧ resp304 "u1" = .http304 ∧
      RemoteDB.cacheStep fpEx [] resp304 0 st0Ex "u1" = st0Ex) ∧
    (respStamp "u1" = .success (some "Mon, 01 Jan 2024") none priorDoc ∧
      RemoteDB.check_path [] st0Ex.fs (mpathOf fpEx "u1") = true ∧
      DbBase.read 0 priorDoc "u1" st0Ex.store = .ok [] ∧
      (RemoteDB.cacheStep fpEx [] respStamp 0 st0Ex "u1").hasUpdates = true ∧
      fsLookup (RemoteDB.cacheStep fpEx [] respStamp 0 st0Ex "u1").fs (mpathOf fpEx "u1")
        = some (.content priorDoc) ∧
      fsLookup (RemoteDB.cacheStep fpEx [] respStamp 0 st0Ex "u1").fs (tpathOf fpEx "u1")
        = some (.stamp "Mon, 01 Jan 2024")) ∧
    (pathsSep fpEx ["u1"] = true ∧
     (RemoteDB.cache fpEx [] respStamp 0 ["u1"] [] []).error = none ∧
     ((RemoteDB.cache fpEx [] respStamp 0 ["u1"] [] []).hasUpdates = true ↔
       ∃ url ∈ ["u1"], freshUpdate fpEx [] respStamp 0 [] url = true)) := by
  have hcommit := (c5_conditional_cache fpEx [] respStamp 0).2.1 st0Ex "u1"
    (some "Mon, 01 Jan 2024") none priorDoc [] rfl rfl rfl rfl
  refine ⟨⟨rfl, rfl, ?_⟩, ⟨rfl, rfl, rfl, hcommit.1, hcommit.2.1, ?_⟩, ⟨rfl, rfl, ?_⟩⟩
  · exact (c5_conditional_cache fpEx [] resp304 0).1 st0Ex "u1" rfl rfl
  · exact hcommit.2.2.1 "Mon, 01 Jan 2024" rfl
  · exact (c5_conditional_cache fpEx [] respStamp 0).2.2 ["u1"] [] [] rfl rfl

/-! ## Helper lemmas: evaluating `find`/`findall` over serialized elements -/

theorem xfind_append_none (t : String) :
    ∀ (a b : List XElem), xfind t a = none → xfind t (a ++ b) = xfind t b := by
  intro a
  induction a with
  | nil => intro b _; rfl
  | cons e es ih =>
    intro b h
    simp only [xfind] at h
    by_cases he : e.tag = t
    · rw [if_pos he] at h; cases h
    · rw [if_neg he] at h
      simp only [List.cons_append, xfind, if_neg he]
      exact ih b h

theorem optChild_mem {e : XElem} {x : Option XElem} (h : e ∈ optChild x) : x = some e := by
  cases x with
  | none => simp [optChild] at h
  | some y =>
    simp only [optChild, List.mem_singleton] at h
    rw [h]

theorem xfind_optChild_none (t : String) (x : Option XElem)
    (hx : ∀ e, x = some e → e.tag ≠ t) : xfind t (optChild x) = none :=
  xfind_none t _ (fun e he => hx e (optChild_mem he))

theorem xfindall_optChild_none (t : String) (x : Option XElem)
    (hx : ∀ e, x = some e → e.tag ≠ t) : xfindall t (optChild x) = [] :=
  xfindall_none t _ (fun e he => hx e (optChild_mem he))

theorem xfind_map_none {α : Type} (t : String) (f : α → XElem) (l : List α)
    (hf : ∀ a, (f a).tag ≠ t) : xfind t (l.map f) = none :=
  xfind_none t _ (by
    intro e he
    obtain ⟨a, _, rfl⟩ := List.mem_map.mp he
    exact hf a)

theorem xfindall_map_none {α : Type} (t : String) (f : α → XElem) (l : List α)
    (hf : ∀ a, (f a).tag ≠ t) : xfindall t (l.map f) = [] :=
  xfindall_none t _ (by
    intro e he
    obtain ⟨a, _, rfl⟩ := List.mem_map.mp he
    exact hf a)

theorem xfindall_map_all {α : Type} (t : String) (f : α → XElem) (l : List α)
    (hf : ∀ a, (f a).tag = t) : xfindall t (l.map f) = l.map f :=
  xfindall_all t _ (by
    intro e he
    obtain ⟨a, _, rfl⟩ := List.mem_map.mp he
    exact hf a)

theorem alookup_append_none (k : String) :
    ∀ (a b : List (String × String)), alookup k a = none → alookup k (a ++ b) = alookup k b := by
  intro a
  induction a with
  | nil => intro b _; rfl
  | cons kv rest ih =>
    intro b h
    simp only [alookup] at h
    by_cases hk : kv.1 = k
    · rw [if_pos hk] at h; cases h
    · rw [if_neg hk] at h
      simp only [List.cons_append, alookup, if_neg hk]
      exact ih b h

theorem optChild_none_eq : optChild none = [] := rfl

theorem optChild_some_eq (e : XElem) : optChild (some e) = [e] := rfl

theorem toXml_children (o : Overlay) :
    (Overlay.to_xml o).children =
      textElem "name" o.name :: textElem "description" o.description ::
        (optChild (o.homepage.map (textElem "homepage")) ++
         (optChild (o.irc.map (textElem "irc")) ++
          (ownerElem o ::
           (o.sources.map srcElem ++ o.feeds.map feedElem)))) := by
  simp [Overlay.to_xml]

theorem toXml_find_name (o : Overlay) :
    xfind "name" (Overlay.to_xml o).children = some (textElem "name" o.name) := by
  rw [toXml_children]
  simp [xfind, textElem]

theorem toXml_find_description (o : Overlay) :
    xfind "description" (Overlay.to_xml o).children =
      some (textElem "description" o.description) := by
  rw [toXml_children]
  simp [xfind, textElem]

theorem toXml_find_owner (o : Overlay) :
    xfind "owner" (Overlay.to_xml o).children = some (ownerElem o) := by
  rw [toXml_children]
  simp only [xfind, textElem]
  rw [if_neg (by simp), if_neg (by simp)]
  rw [xfind_append_none _ _ _ (xfind_optChild_none _ _ (by
    intro e he
    obtain ⟨h, _, rfl⟩ := Option.map_eq_some'.mp he
    simp [textElem]))]
  rw [xfind_append_none _ _ _ (xfind_optChild_none _ _ (by
    intro e he
    obtain ⟨h, _, rfl⟩ := Option.map_eq_some'.mp he
    simp [textElem]))]
  simp [xfind, ownerElem]

theorem toXml_find_homepage (o : Overlay) :
    xfind "homepage" (Overlay.to_xml o).children = o.homepage.map (textElem "homepage") := by
  rw [toXml_children]
  simp only [xfind, textElem]
  rw [if_neg (by simp), if_neg (by simp)]
  cases hh : o.homepage with
  | some h => simp [optChild, xfind, textElem]
  | none =>
    simp only [Option.map_none', optChild_none_eq, List.nil_append]
    rw [xfind_append_none _ _ _ (xfind_optChild_none _ _ (by
      intro e he
      obtain ⟨h, _, rfl⟩ := Option.map_eq_some'.mp he
      simp [textElem]))]
    rw [xfind, if_neg (by simp [ownerElem])]
    rw [xfind_append_none _ _ _ (xfind_map_none _ _ _ (by intro a; simp [srcElem]))]
    exact xfind_map_none _ _ _ (by intro a; simp [feedElem])

theorem toXml_find_link (o : Overlay) :
    xfind "link" (Overlay.to_xml o).children = none := by
  rw [toXml_children]
  simp only [xfind, textElem]
  rw [if_neg (by simp), if_neg (by simp)]
  rw [xfind_append_none _ _ _ (xfind_optChild_none _ _ (by
    intro e he
    obtain ⟨h, _, rfl⟩ := Option.map_eq_some'.mp he
    simp [textElem]))]
  rw [xfind_append_none _ _ _ (xfind_optChild_none _ _ (by
    intro e he
    obtain ⟨h, _, rfl⟩ := Option.map_eq_some'.mp he
    simp [textElem]))]
  rw [xfind, if_neg (by simp [ownerElem])]
  rw [xfind_append_none _ _ _ (xfind_map_none _ _ _ (by intro a; simp [srcElem]))]
  exact xfind_map_none _ _ _ (by intro a; simp [feedElem])

theorem toXml_find_irc (o : Overlay) :
    xfind "irc" (Overlay.to_xml o).children = o.irc.map (textElem "irc") := by
  rw [toXml_children]
  simp only [xfind, textElem]
  rw [if_neg (by simp), if_neg (by simp)]
  rw [xfind_append_none _ _ _ (xfind_optChild_none _ _ (by
    intro e he
    obtain ⟨h, _, rfl⟩ := Option.map_eq_some'.mp he
    simp [textElem]))]
  cases hh : o.irc with
  | some h => simp [optChild, xfind, textElem]
  | none =>
    simp only [Option.map_none', optChild_none_eq, List.nil_append]
    rw [xfind, if_neg (by simp [ownerElem])]
    rw [xfind_append_none _ _ _ (xfind_map_none _ _ _ (by intro a; simp [srcElem]))]
    exact xfind_map_none _ _ _ (by intro a; simp [feedElem])

theorem toXml_find_hint (o : Overlay) (t : String)
    (h1 : t ≠ "name") (h2 : t ≠ "description") (h3 : t ≠ "homepage")
    (h4 : t ≠ "irc") (h5 : t ≠ "owner") (h6 : t ≠ "source") (h7 : t ≠ "feed") :
    xfind t (Overlay.to_xml o).children = none := by
  rw [toXml_children]
  rw [xfind, if_neg (by simp [textElem, Ne.symm h1])]
  rw [xfind, if_neg (by simp [textElem, Ne.symm h2])]
  rw [xfind_append_none _ _ _ (xfind_optChild_none _ _ (by
    intro e he
    obtain ⟨h, _, rfl⟩ := Option.map_eq_some'.mp he
    simp [textElem, Ne.symm h3]))]
  rw [xfind_append_none _ _ _ (xfind_optChild_none _ _ (by
    intro e he
    obtain ⟨h, _, rfl⟩ := Option.map_eq_some'.mp he
    simp [textElem, Ne.symm h4]))]
  rw [xfind, if_neg (by simp [ownerElem, Ne.symm h5])]
  rw [xfind_append_none _ _ _ (xfind_map_none _ _ _ (by intro a; simp [srcElem, Ne.symm h6]))]
  exact xfind_map_none _ _ _ (by intro a; simp [feedElem, Ne.symm h7])

theorem toXml_findall_source (o : Overlay) :
    xfindall "source" (Overlay.to_xml o).children = o.sources.map srcElem := by
  rw [toXml_children]
  rw [xfindall, if_neg (by simp [textElem])]
  rw [xfindall, if_neg (by simp [textElem])]
  rw [xfindall_append, xfindall_optChild_none _ _ (by
    intro e he
    obtain ⟨h, _, rfl⟩ := Option.map_eq_some'.mp he
    simp [textElem])]
  rw [List.nil_append]
  rw [xfindall_append, xfindall_optChild_none _ _ (by
    intro e he
    obtain ⟨h, _, rfl⟩ := Option.map_eq_some'.mp he
    simp [textElem])]
  rw [List.nil_append]
  rw [xfindall, if_neg (by simp [ownerElem])]
  rw [xfindall_append, xfindall_map_all _ _ _ (by intro a; simp [srcElem]),
    xfindall_map_none _ _ _ (by intro a; simp [feedElem])]
  simp

theorem toXml_findall_feed (o : Overlay) :
    xfindall "feed" (Overlay.to_xml o).children = o.feeds.map feedElem := by
  rw [toXml_children]
  rw [xfindall, if_neg (by simp [textElem])]
  rw [xfindall, if_neg (by simp [textElem])]
  rw [xfindall_append, xfindall_optChild_none _ _ (by
    intro e he
    obtain ⟨h, _, rfl⟩ := Option.map_eq_some'.mp he
    simp [textElem])]
  rw [List.nil_append]
  rw [xfindall_append, xfindall_optChild_none _ _ (by
    intro e he
    obtain ⟨h, _, rfl⟩ := Option.map_eq_some'.mp he
    simp [textElem])]
  rw [List.nil_append]
  rw [xfindall, if_neg (by simp [ownerElem])]
  rw [xfindall_append, xfindall_map_none _ _ _ (by intro a; simp [srcElem]),
    xfindall_map_all _ _ _ (by intro a; simp [feedElem])]
  simp

theorem toXml_alookup_status (o : Overlay) :
    alookup "status" (Overlay.to_xml o).attrib = o.status := by
  cases hs : o.status <;> simp [Overlay.to_xml, alookup, hs]

theorem toXml_alookup_quality (o : Overlay) :
    alookup "quality" (Overlay.to_xml o).attrib = some o.quality := by
  cases hs : o.status <;> simp [Overlay.to_xml, alookup, hs]

theorem toXml_alookup_priority (o : Overlay) :
    alookup "priority" (Overlay.to_xml o).attrib = some (pyStrInt o.priority) := by
  cases hs : o.status <;> simp [Overlay.to_xml, alookup, hs]

theorem toXml_alookup_other (o : Overlay) (k : String)
    (h1 : k ≠ "status") (h2 : k ≠ "quality") (h3 : k ≠ "priority") :
    alookup k (Overlay.to_xml o).attrib = none := by
  cases hs : o.status <;>
    simp [Overlay.to_xml, alookup, hs, Ne.symm h1, Ne.symm h2, Ne.symm h3]

theorem parseXmlName_toXml (o : Overlay) :
    parseXmlName (Overlay.to_xml o) = .ok (pyStrip o.name) := by
  rw [parseXmlName, toXml_find_name]
  rfl

theorem parseDesc_toXml (o : Overlay) (ignore : Nat) :
    parseDesc (Overlay.to_xml o) ignore = .ok (collapseWs (pyStrip o.description), []) := by
  rw [parseDesc, toXml_find_description]
  rfl

theorem parseOwner_toXml (o : Overlay) (ignore : Nat) :
    parseOwner (Overlay.to_xml o) ignore =
      .ok (some (pyStrip (o.owner_email.getD "")), o.owner_name.map pyStrip, []) := by
  rw [parseOwner, toXml_find_owner]
  cases hn : o.owner_name with
  | none => simp [ownerElem, hn, xfind, textElem, optChild_none_eq, stripText]
  | some nm => simp [ownerElem, hn, xfind, textElem, optChild_some_eq, stripText]

theorem parseQuality_toXml (o : Overlay) :
    parseQuality (Overlay.to_xml o) =
      if QUALITY_LEVELS.contains o.quality then o.quality else "experimental" := by
  rw [parseQuality, toXml_alookup_quality]

theorem parsePriorityX_toXml (o : Overlay) :
    parsePriorityX (Overlay.to_xml o) = .ok o.priority := by
  simp only [parsePriorityX, toXml_alookup_priority]
  rw [pyInt_pyStrInt]

theorem parseHomepage_toXml (o : Overlay) :
    parseHomepage (Overlay.to_xml o) = o.homepage.map pyStrip := by
  cases hh : o.homepage <;>
    simp [parseHomepage, toXml_find_homepage, hh, toXml_find_link, stripText, textElem]

theorem parseHint_toXml (o : Overlay) (t : String)
    (h1 : t ≠ "name") (h2 : t ≠ "description") (h3 : t ≠ "homepage")
    (h4 : t ≠ "irc") (h5 : t ≠ "owner") (h6 : t ≠ "source") (h7 : t ≠ "feed")
    (ha1 : t ≠ "status") (ha2 : t ≠ "quality") (ha3 : t ≠ "priority") :
    parseHint t (Overlay.to_xml o) = "" := by
  rw [parseHint, toXml_find_hint o t h1 h2 h3 h4 h5 h6 h7,
    toXml_alookup_other o t ha1 ha2 ha3]

theorem sourceElems_toXml (o : Overlay) :
    sourceElems (Overlay.to_xml o) = o.sources.map srcElem := by
  rw [sourceElems, toXml_findall_source]
  cases hs : o.sources with
  | nil =>
    simp only [List.map_nil]
    rw [toXml_alookup_other o "src" (by decide) (by decide) (by decide)]
  | cons s rest =>
    simp only [List.map_cons]
    rw [List.filter_eq_self.mpr]
    intro e he
    have : ∃ a, srcElem a = e := by
      rcases List.mem_cons.mp he with h | h
      · exact ⟨s, h.symm⟩
      · obtain ⟨a, _, rfl⟩ := List.mem_map.mp h
        exact ⟨a, rfl⟩
    obtain ⟨a, rfl⟩ := this
    simp [srcElem, alookup]

/-- The entity a round trip through `to_xml` and `from_xml` produces. -/
def rtOverlay (o : Overlay) : Overlay :=
  { name := pyStrip o.name
    sources := o.sources.map (fun s => ⟨pyStrip s.src, s.type_key⟩)
    branch := some ""
    subpath := some ""
    owner_email := some (pyStrip (o.owner_email.getD ""))
    owner_name := o.owner_name.map pyStrip
    description := collapseWs (pyStrip o.description)
    status := o.status
    quality := if QUALITY_LEVELS.contains o.quality then o.quality else "experimental"
    priority := o.priority
    homepage := o.homepage.map pyStrip
    feeds := o.feeds.map pyStrip
    irc := o.irc.map pyStrip }

theorem mkSources_map (l : List Source)
    (h : ∀ s ∈ l, OVERLAY_TYPES.contains s.type_key = true) :
    mkSources (l.map srcElem) =
      .ok (l.map (fun s => (⟨pyStrip s.src, s.type_key⟩ : Source))) := by
  induction l with
  | nil => rfl
  | cons s rest ih =>
    have hcont : OVERLAY_TYPES.contains s.type_key = true := h s (by simp)
    simp only [List.map_cons, mkSources, mkSource, srcElem, alookup, if_pos]
    rw [if_pos hcont, ih (fun q hq => h q (by simp [hq]))]
    rfl

/-- `from_xml` of `to_xml` of an entity with a nonempty source list of
known backend types succeeds with `rtOverlay` and no warnings. -/
theorem fromXml_toXml (o : Overlay) (ignore : Nat) (hne : o.sources ≠ [])
    (htypes : ∀ s ∈ o.sources, OVERLAY_TYPES.contains s.type_key = true) :
    Overlay.from_xml (Overlay.to_xml o) ignore = .ok (rtOverlay o, []) := by
  obtain ⟨s0, srest, hs⟩ := List.exists_cons_of_ne_nil hne
  have hsrcs : sourceElems (Overlay.to_xml o) = srcElem s0 :: srest.map srcElem := by
    rw [sourceElems_toXml, hs, List.map_cons]
  have hmk : mkSources (srcElem s0 :: srest.map srcElem) =
      .ok ((s0 :: srest).map (fun s => (⟨pyStrip s.src, s.type_key⟩ : Source))) := by
    rw [← List.map_cons, ← hs]
    exact mkSources_map o.sources htypes
  have hbr : parseHint "branch" (Overlay.to_xml o) = "" :=
    parseHint_toXml o "branch" (by decide) (by decide) (by decide) (by decide)
      (by decide) (by decide) (by decide) (by decide) (by decide) (by decide)
  have hsub : parseHint "subpath" (Overlay.to_xml o) = "" :=
    parseHint_toXml o "subpath" (by decide) (by decide) (by decide) (by decide)
      (by decide) (by decide) (by decide) (by decide) (by decide) (by decide)
  simp only [Overlay.from_xml, parseXmlName_toXml, hsrcs, hmk, parseOwner_toXml,
    parseDesc_toXml, parsePriorityX_toXml, hbr, hsub, toXml_alookup_status,
    parseQuality_toXml, parseHomepage_toXml, toXml_findall_feed, toXml_find_irc,
    List.map_map, Option.map_map, List.append_nil, List.nil_append]
  rw [rtOverlay, ← hs]
  have hf : (stripText ∘ feedElem) = pyStrip := by funext f; rfl
  have hi : (stripText ∘ textElem "irc") = pyStrip := by funext x; rfl
  rw [hf, hi]

/-- The whitespace-normalization conditions under which a round trip
reproduces an entity equal (per `Overlay.__eq__`) to the original. -/
def overlayNormal (o : Overlay) : Prop :=
  pyStrip o.name = o.name ∧
  collapseWs (pyStrip o.description) = o.description ∧
  (∀ h, o.homepage = some h → pyStrip h = h) ∧
  (∀ n, o.owner_name = some n → pyStrip n = n) ∧
  (∃ e, o.owner_email = some e ∧ pyStrip e = e) ∧
  (∀ src ∈ o.sources, pyStrip src.src = src.src ∧
     OVERLAY_TYPES.contains src.type_key = true)

theorem rtSources_id (l : List Source) (h : ∀ src ∈ l, pyStrip src.src = src.src) :
    l.map (fun s => (⟨pyStrip s.src, s.type_key⟩ : Source)) = l := by
  induction l with
  | nil => rfl
  | cons s rest ih =>
    rw [List.map_cons, ih (fun q hq => h q (by simp [hq]))]
    have hs : pyStrip s.src = s.src := h s (by simp)
    cases s
    simp only at hs
    rw [hs]

theorem sourceIn_self (s : Source) (l : List Source) (h : s ∈ l) :
    sourceIn s l = true := by
  rw [sourceIn, List.any_eq_true]
  exact ⟨s, h, by simp⟩

theorem overlayEq_of_fields (a b : Overlay)
    (h1 : a.description = b.description) (h2 : a.homepage = b.homepage)
    (h3 : a.name = b.name) (h4 : a.owner_email = b.owner_email)
    (h5 : a.owner_name = b.owner_name) (h6 : a.priority = b.priority)
    (h7 : a.status = b.status) (h8 : a.sources = b.sources) :
    Overlay.eq a b = true := by
  rw [Overlay.eq, h1, h2, h3, h4, h5, h6, h7, h8]
  simp only [beq_self_eq_true, Bool.true_and]
  rw [List.all_eq_true]
  intro s hs
  have hm : s ∈ b.sources := by
    rcases List.mem_append.mp hs with h | h <;> exact h
  simp [sourceIn_self s _ hm]

theorem overlayEq_rt (v : Overlay) (hn : overlayNormal v) :
    Overlay.eq (rtOverlay v) v = true := by
  obtain ⟨h1, h2, h3, h4, ⟨e, he, hpe⟩, h6⟩ := hn
  refine overlayEq_of_fields _ _ h2 ?_ h1 ?_ ?_ rfl rfl ?_
  · show v.homepage.map pyStrip = v.homepage
    cases hh : v.homepage with
    | none => rfl
    | some h => simp [h3 h hh]
  · show some (pyStrip (v.owner_email.getD "")) = v.owner_email
    rw [he]
    simp [hpe]
  · show v.owner_name.map pyStrip = v.owner_name
    cases hh : v.owner_name with
    | none => rfl
    | some n => simp [h4 n hh]
  · exact rtSources_id _ (fun src hs => (h6 src hs).1)

theorem smLookup_mem (s : StoreMap) (k : String) (v : Overlay)
    (h : smLookup s k = some v) : (k, v) ∈ s := by
  induction s with
  | nil => simp [smLookup] at h
  | cons kv rest ih =>
    simp only [smLookup] at h
    by_cases hk : kv.1 = k
    · rw [if_pos hk] at h
      cases h
      rw [← hk]
      exact List.mem_cons_self kv rest
    · rw [if_neg hk] at h
      exact List.mem_cons_of_mem kv (ih h)

theorem docNodes_write (s : StoreMap) :
    docNodes (DbBase.write s) = (smValues s).map Overlay.to_xml := by
  rw [docNodes, DbBase.write]
  rw [show (XElem.mk "repositories" [("version", "1.0")] ""
      ((smValues s).map Overlay.to_xml)).children = (smValues s).map Overlay.to_xml from rfl]
  rw [xfindall_map_none "overlay" Overlay.to_xml (smValues s)
      (by intro a; simp [Overlay.to_xml]),
    xfindall_map_all "repo" Overlay.to_xml (smValues s)
      (by intro a; simp [Overlay.to_xml]),
    List.nil_append]

theorem parseNodes_write (ignore : Nat) :
    ∀ (l : List Overlay),
      (∀ o ∈ l, o.sources ≠ [] ∧
         ∀ src ∈ o.sources, OVERLAY_TYPES.contains src.type_key = true) →
      parseNodes ignore (l.map Overlay.to_xml) = .ok (l.map rtOverlay) := by
  intro l
  induction l with
  | nil => intro _; rfl
  | cons o rest ih =>
    intro h
    obtain ⟨hne, htypes⟩ := h o (by simp)
    simp only [List.map_cons, parseNodes, fromXml_toXml o ignore hne htypes,
      ih (fun q hq => h q (by simp [hq]))]

theorem lastNamed_rt :
    ∀ (s : StoreMap), (smKeys s).Nodup → (∀ kv ∈ s, kv.2.name = kv.1) →
      (∀ kv ∈ s, pyStrip kv.2.name = kv.2.name) →
      ∀ k, lastNamed k ((smValues s).map rtOverlay) = (smLookup s k).map rtOverlay := by
  intro s
  induction s with
  | nil => intro _ _ _ k; rfl
  | cons kv rest ih =>
    intro hnodup hkeys hstrip k
    have hname : (rtOverlay kv.2).name = kv.1 := by
      show pyStrip kv.2.name = kv.1
      rw [hstrip kv (by simp), hkeys kv (by simp)]
    have hvals : (smValues (kv :: rest)).map rtOverlay
        = rtOverlay kv.2 :: (smValues rest).map rtOverlay := rfl
    rw [hvals, lastNamed, List.filter_cons]
    by_cases hk : kv.1 = k
    · rw [if_pos (by simp [hname, hk])]
      have hfil : List.filter (fun e => e.name == k) ((smValues rest).map rtOverlay)
          = [] := by
        rw [List.filter_eq_nil_iff]
        intro e he
        obtain ⟨v, hv, rfl⟩ := List.mem_map.mp he
        obtain ⟨kv2, hkv2, rfl⟩ := List.mem_map.mp hv
        have hn2 : (rtOverlay kv2.2).name = kv2.1 := by
          show pyStrip kv2.2.name = kv2.1
          rw [hstrip kv2 (List.mem_cons_of_mem kv hkv2),
            hkeys kv2 (List.mem_cons_of_mem kv hkv2)]
        simp only [beq_iff_eq, hn2]
        intro hcontra
        apply (List.nodup_cons.mp hnodup).1
        show kv.1 ∈ smKeys rest
        rw [hk, ← hcontra]
        exact List.mem_map_of_mem _ hkv2
      rw [hfil, List.getLast?_singleton]
      simp only [smLookup, if_pos hk]
      rfl
    · rw [if_neg (by simp [hname, hk])]
      simp only [smLookup, if_neg hk]
      rw [← lastNamed]
      exact ih (List.nodup_cons.mp hnodup).2
        (fun q hq => hkeys q (List.mem_cons_of_mem kv hq))
        (fun q hq => hstrip q (List.mem_cons_of_mem kv hq)) k

/-- C3 (amended): for every name-keyed Catalog Store whose overlays all
have exactly one source of a known backend type and whose compared string
fields are whitespace-normalized (name/owner fields/homepage/source
location stripped; description stripped and internally collapsed),
serializing with `write` and parsing back with `read` yields a store
equal to the original under the store equality relation. -/
theorem c3_write_read_roundtrip (ignore : Nat) (s : StoreMap)
    (hnodup : (smKeys s).Nodup)
    (hkeyed : ∀ kv ∈ s, kv.2.name = kv.1)
    (hsingle : ∀ kv ∈ s, ∃ src, kv.2.sources = [src])
    (hnormal : ∀ kv ∈ s, overlayNormal kv.2) :
    ∃ s', DbBase.readDoc ignore (DbBase.write s) smEmpty = .ok s' ∧
      DbBase.eq s' s = .ok true := by
  have hvalsprop : ∀ o ∈ smValues s, o.sources ≠ [] ∧
      ∀ src ∈ o.sources, OVERLAY_TYPES.contains src.type_key = true := by
    intro o ho
    obtain ⟨kv, hkv, rfl⟩ := List.mem_map.mp ho
    obtain ⟨src, hsrc⟩ := hsingle kv hkv
    exact ⟨by rw [hsrc]; simp, fun q hq => ((hnormal kv hkv).2.2.2.2.2 q hq).2⟩
  refine ⟨insertAll smEmpty ((smValues s).map rtOverlay), ?_, ?_⟩
  · rw [DbBase.readDoc, docNodes_write]
    exact readNodes_insertAll ignore _ _ smEmpty
      (parseNodes_write ignore (smValues s) hvalsprop)
  · have hstrip : ∀ kv ∈ s, pyStrip kv.2.name = kv.2.name :=
      fun kv hkv => (hnormal kv hkv).1
    have hlk : ∀ k, smLookup (insertAll smEmpty ((smValues s).map rtOverlay)) k
        = (smLookup s k).map rtOverlay := by
      intro k
      rw [lookup_insertAll, lastNamed_rt s hnodup hkeyed hstrip k]
      cases smLookup s k <;> rfl
    have hboth : ∀ k ∈ dedupKeys
        (smKeys (insertAll smEmpty ((smValues s).map rtOverlay)) ++ smKeys s) [],
        (smLookup (insertAll smEmpty ((smValues s).map rtOverlay)) k).isSome = true ∧
        (smLookup s k).isSome = true := by
      intro k hkmem
      rw [dedupKeys_mem] at hkmem
      rcases List.mem_append.mp hkmem.1 with h | h
      · have hsome := (smKeys_lookup _ k).mp h
        rw [hlk] at hsome ⊢
        cases hcase : smLookup s k
        · rw [hcase] at hsome; cases hsome
        · simp
      · have hsome := (smKeys_lookup _ k).mp h
        rw [hlk]
        cases hcase : smLookup s k
        · rw [hcase] at hsome; cases hsome
        · simp
    obtain ⟨bl, hbl, hiff⟩ := storeEqLoop_ok
      (insertAll smEmpty ((smValues s).map rtOverlay)) s _ hboth
    have hbl_true : bl = true := by
      rw [hiff]
      intro k _ ea eb hka hkb
      rw [hlk, hkb] at hka
      have hinj : some (rtOverlay eb) = some ea := hka
      cases hinj
      exact overlayEq_rt eb (hnormal (k, eb) (smLookup_mem s k eb hkb))
    rw [DbBase.eq, hbl, hbl_true]

/-- An entity whose description holds a double space: the round trip
collapses it, so the claim fails without the normalization hypotheses. -/
def ovCx : Overlay :=
  { name := "x", sources := [⟨"https://e.org/x.git", "git"⟩], branch := some "",
    subpath := some "", owner_email := some "e@x.org", owner_name := none,
    description := "a  b", status := none, quality := "experimental", priority := 50,
    homepage := none, feeds := [], irc := none }

theorem c3_write_read_roundtrip_counterexample :
    (∀ kv ∈ [("x", ovCx)], ∃ src, kv.2.sources = [src]) ∧
    DbBase.readDoc 0 (DbBase.write [("x", ovCx)]) smEmpty =
      .ok [("x", rtOverlay ovCx)] ∧
    (rtOverlay ovCx).description = "a b" ∧ ovCx.description = "a  b" ∧
    DbBase.eq [("x", rtOverlay ovCx)] [("x", ovCx)] = .ok false := by
  refine ⟨?_, rfl, rfl, rfl, rfl⟩
  intro kv hkv
  simp only [List.mem_singleton] at hkv
  subst hkv
  exact ⟨_, rfl⟩

/-- A normalized single-source overlay for the round-trip witness. -/
def ovW : Overlay :=
  { name := "w", sources := [⟨"https://e.org/w.git", "git"⟩], branch := some "",
    subpath := some "", owner_email := some "o@e.org", owner_name := some "Owner",
    description := "a demo overlay", status := some "official", quality := "stable",
    priority := 50, homepage := some "https://e.org", feeds := ["https://e.org/feed"],
    irc := some "#w" }

theorem c3_write_read_roundtrip_witness :
    ((smKeys [("w", ovW)]).Nodup ∧ (∀ kv ∈ [("w", ovW)], kv.2.name = kv.1) ∧
      (∀ kv ∈ [("w", ovW)], ∃ src, kv.2.sources = [src]) ∧
      (∀ kv ∈ [("w", ovW)], overlayNormal kv.2)) ∧
    ∃ s', DbBase.readDoc 0 (DbBase.write [("w", ovW)]) smEmpty = .ok s' ∧
      DbBase.eq s' [("w", ovW)] = .ok true := by
  have h1 : (smKeys [("w", ovW)]).Nodup := by simp [smKeys]
  have h2 : ∀ kv ∈ [("w", ovW)], kv.2.name = kv.1 := by
    intro kv hkv
    simp only [List.mem_singleton] at hkv
    subst hkv
    rfl
  have h3 : ∀ kv ∈ [("w", ovW)], ∃ src, kv.2.sources = [src] := by
    intro kv hkv
    simp only [List.mem_singleton] at hkv
    subst hkv
    exact ⟨_, rfl⟩
  have h4 : ∀ kv ∈ [("w", ovW)], overlayNormal kv.2 := by
    intro kv hkv
    simp only [List.mem_singleton] at hkv
    subst hkv
    refine ⟨rfl, rfl, ?_, ?_, ⟨"o@e.org", rfl, rfl⟩, ?_⟩
    · intro h hh
      cases hh
      rfl
    · intro n hn
      cases hn
      rfl
    · intro src hsrc
      simp only [ovW, List.mem_singleton] at hsrc
      subst hsrc
      exact ⟨rfl, rfl⟩
  exact ⟨⟨h1, h2, h3, h4⟩, c3_write_read_roundtrip 0 [("w", ovW)] h1 h2 h3 h4⟩

/-! ## C6: the two construction paths -/

/-- The `source` node encoding one `(src, type, sub)` dict entry. -/
def dsrcElem (sd : String × String × String) : XElem :=
  ⟨"source", [("type", sd.2.1)], sd.1, []⟩

/-- The `name` child block of the document node equivalent to a mapping. -/
def nameBlock (d : OvDict) : List XElem :=
  match d.name with | some n => [textElem "name" n] | none => []

/-- The `description` child block. -/
def descBlock (d : OvDict) : List XElem :=
  match d.description with | some ds => [textElem "description" ds] | none => []

/-- The `source` children block. -/
def srcBlock (d : OvDict) : List XElem :=
  match d.sources with | some l => l.map dsrcElem | none => []

/-- The `owner` child block: present when the mapping holds an owner email
or an owner name. -/
def ownerBlock (d : OvDict) : List XElem :=
  match d.owner_email, d.owner_name with
  | none, none => []
  | oe, onm =>
    [⟨"owner", [], "",
      (match oe with | some e => [textElem "email" e] | none => []) ++
        optChild (onm.map (textElem "name"))⟩]

/-- The structured-document node equivalent to a plain key/value mapping:
the same definition rendered in the document format `from_xml` accepts. -/
def xmlOfDict (d : OvDict) : XElem :=
  ⟨"repo",
   (match d.status with | some s => [("status", s)] | none => []) ++
     ([("quality", d.quality)] ++
       (match d.priority with | some p => [("priority", pyStrInt p)] | none => [])),
   "",
   nameBlock d ++ (descBlock d ++ (optChild (d.homepage.map (textElem "homepage")) ++
     (optChild (d.irc.map (textElem "irc")) ++ (ownerBlock d ++ (srcBlock d ++
       d.feeds.map feedElem)))))⟩

theorem xfind_nameBlock_none (d : OvDict) (t : String) (h : t ≠ "name") :
    xfind t (nameBlock d) = none := by
  cases hn : d.name <;> simp [nameBlock, hn, xfind, textElem, Ne.symm h]

theorem xfind_descBlock_none (d : OvDict) (t : String) (h : t ≠ "description") :
    xfind t (descBlock d) = none := by
  cases hn : d.description <;> simp [descBlock, hn, xfind, textElem, Ne.symm h]

theorem xfind_ownerBlock_none (d : OvDict) (t : String) (h : t ≠ "owner") :
    xfind t (ownerBlock d) = none := by
  apply xfind_none
  intro e he
  rw [ownerBlock] at he
  cases hoe : d.owner_email <;> cases hon : d.owner_name <;>
    rw [hoe, hon] at he <;> simp at he <;> subst he <;> simp [Ne.symm h]

theorem xfind_srcBlock_none (d : OvDict) (t : String) (h : t ≠ "source") :
    xfind t (srcBlock d) = none := by
  cases hs : d.sources with
  | none => rw [srcBlock, hs]; rfl
  | some l =>
    rw [srcBlock, hs]
    exact xfind_map_none t dsrcElem l (fun a => by simp [dsrcElem, Ne.symm h])

theorem xfindall_nameBlock_none (d : OvDict) (t : String) (h : t ≠ "name") :
    xfindall t (nameBlock d) = [] := by
  cases hn : d.name <;> simp [nameBlock, hn, xfindall, textElem, Ne.symm h]

theorem xfindall_descBlock_none (d : OvDict) (t : String) (h : t ≠ "description") :
    xfindall t (descBlock d) = [] := by
  cases hn : d.description <;> simp [descBlock, hn, xfindall, textElem, Ne.symm h]

theorem xfindall_ownerBlock_none (d : OvDict) (t : String) (h : t ≠ "owner") :
    xfindall t (ownerBlock d) = [] := by
  apply xfindall_none
  intro e he
  rw [ownerBlock] at he
  cases hoe : d.owner_email <;> cases hon : d.owner_name <;>
    rw [hoe, hon] at he <;> simp at he <;> subst he <;> simp [Ne.symm h]

theorem xfindall_srcBlock_none (d : OvDict) (t : String) (h : t ≠ "source") :
    xfindall t (srcBlock d) = [] := by
  cases hs : d.sources with
  | none => rw [srcBlock, hs]; rfl
  | some l =>
    rw [srcBlock, hs]
    exact xfindall_map_none t dsrcElem l (fun a => by simp [dsrcElem, Ne.symm h])

theorem xmlOfDict_children (d : OvDict) :
    (xmlOfDict d).children =
      nameBlock d ++ (descBlock d ++ (optChild (d.homepage.map (textElem "homepage")) ++
        (optChild (d.irc.map (textElem "irc")) ++ (ownerBlock d ++ (srcBlock d ++
          d.feeds.map feedElem))))) := rfl

theorem xmlOfDict_find_name (d : OvDict) (nm : String) (hname : d.name = some nm) :
    xfind "name" (xmlOfDict d).children = some (textElem "name" nm) := by
  rw [xmlOfDict_children, nameBlock, hname]
  simp [xfind, textElem]

theorem xmlOfDict_find_description (d : OvDict) :
    xfind "description" (xmlOfDict d).children =
      d.description.map (textElem "description") := by
  rw [xmlOfDict_children,
    xfind_append_none _ _ _ (xfind_nameBlock_none d _ (by decide))]
  cases hd : d.description with
  | some ds => simp [descBlock, hd, xfind, textElem]
  | none =>
    rw [show descBlock d = [] by rw [descBlock, hd], List.nil_append]
    rw [xfind_append_none _ _ _ (xfind_optChild_none _ _ (by
      intro e he
      obtain ⟨x, _, rfl⟩ := Option.map_eq_some'.mp he
      simp [textElem]))]
    rw [xfind_append_none _ _ _ (xfind_optChild_none _ _ (by
      intro e he
      obtain ⟨x, _, rfl⟩ := Option.map_eq_some'.mp he
      simp [textElem]))]
    rw [xfind_append_none _ _ _ (xfind_ownerBlock_none d _ (by decide))]
    rw [xfind_append_none _ _ _ (xfind_srcBlock_none d _ (by decide))]
    exact xfind_map_none _ _ _ (by intro a; simp [feedElem])

theorem xmlOfDict_find_homepage (d : OvDict) :
    xfind "homepage" (xmlOfDict d).children = d.homepage.map (textElem "homepage") := by
  rw [xmlOfDict_children,
    xfind_append_none _ _ _ (xfind_nameBlock_none d _ (by decide)),
    xfind_append_none _ _ _ (xfind_descBlock_none d _ (by decide))]
  cases hh : d.homepage with
  | some h => simp [optChild, xfind, textElem]
  | none =>
    simp only [Option.map_none', optChild_none_eq, List.nil_append]
    rw [xfind_append_none _ _ _ (xfind_optChild_none _ _ (by
      intro e he
      obtain ⟨x, _, rfl⟩ := Option.map_eq_some'.mp he
      simp [textElem]))]
    rw [xfind_append_none _ _ _ (xfind_ownerBlock_none d _ (by decide))]
    rw [xfind_append_none _ _ _ (xfind_srcBlock_none d _ (by decide))]
    exact xfind_map_none _ _ _ (by intro a; simp [feedElem])

theorem xmlOfDict_find_link (d : OvDict) :
    xfind "link" (xmlOfDict d).children = none := by
  rw [xmlOfDict_children,
    xfind_append_none _ _ _ (xfind_nameBlock_none d _ (by decide)),
    xfind_append_none _ _ _ (xfind_descBlock_none d _ (by decide))]
  rw [xfind_append_none _ _ _ (xfind_optChild_none _ _ (by
    intro e he
    obtain ⟨x, _, rfl⟩ := Option.map_eq_some'.mp he
    simp [textElem]))]
  rw [xfind_append_none _ _ _ (xfind_optChild_none _ _ (by
    intro e he
    obtain ⟨x, _, rfl⟩ := Option.map_eq_some'.mp he
    simp [textElem]))]
  rw [xfind_append_none _ _ _ (xfind_ownerBlock_none d _ (by decide))]
  rw [xfind_append_none _ _ _ (xfind_srcBlock_none d _ (by decide))]
  exact xfind_map_none _ _ _ (by intro a; simp [feedElem])

theorem xmlOfDict_find_irc (d : OvDict) :
    xfind "irc" (xmlOfDict d).children = d.irc.map (textElem "irc") := by
  rw [xmlOfDict_children,
    xfind_append_none _ _ _ (xfind_nameBlock_none d _ (by decide)),
    xfind_append_none _ _ _ (xfind_descBlock_none d _ (by decide))]
  rw [xfind_append_none _ _ _ (xfind_optChild_none _ _ (by
    intro e he
    obtain ⟨x, _, rfl⟩ := Option.map_eq_some'.mp he
    simp [textElem]))]
  cases hh : d.irc with
  | some h => simp [optChild, xfind, textElem]
  | none =>
    simp only [Option.map_none', optChild_none_eq, List.nil_append]
    rw [xfind_append_none _ _ _ (xfind_ownerBlock_none d _ (by decide))]
    rw [xfind_append_none _ _ _ (xfind_srcBlock_none d _ (by decide))]
    exact xfind_map_none _ _ _ (by intro a; simp [feedElem])

theorem xmlOfDict_find_owner (d : OvDict) (em onm : String)
    (hemail : d.owner_email = some em) (honame : d.owner_name = some onm) :
    xfind "owner" (xmlOfDict d).children =
      some ⟨"owner", [], "",
        [textElem "email" em] ++ optChild (some (textElem "name" onm))⟩ := by
  rw [xmlOfDict_children,
    xfind_append_none _ _ _ (xfind_nameBlock_none d _ (by decide)),
    xfind_append_none _ _ _ (xfind_descBlock_none d _ (by decide))]
  rw [xfind_append_none _ _ _ (xfind_optChild_none _ _ (by
    intro e he
    obtain ⟨x, _, rfl⟩ := Option.map_eq_some'.mp he
    simp [textElem]))]
  rw [xfind_append_none _ _ _ (xfind_optChild_none _ _ (by
    intro e he
    obtain ⟨x, _, rfl⟩ := Option.map_eq_some'.mp he
    simp [textElem]))]
  rw [ownerBlock, hemail, honame]
  simp [xfind]

theorem xmlOfDict_find_hint (d : OvDict) (t : String)
    (h1 : t ≠ "name") (h2 : t ≠ "description") (h3 : t ≠ "homepage")
    (h4 : t ≠ "irc") (h5 : t ≠ "owner") (h6 : t ≠ "source") (h7 : t ≠ "feed") :
    xfind t (xmlOfDict d).children = none := by
  rw [xmlOfDict_children,
    xfind_append_none _ _ _ (xfind_nameBlock_none d _ h1),
    xfind_append_none _ _ _ (xfind_descBlock_none d _ h2)]
  rw [xfind_append_none _ _ _ (xfind_optChild_none _ _ (by
    intro e he
    obtain ⟨x, _, rfl⟩ := Option.map_eq_some'.mp he
    simp [textElem, Ne.symm h3]))]
  rw [xfind_append_none _ _ _ (xfind_optChild_none _ _ (by
    intro e he
    obtain ⟨x, _, rfl⟩ := Option.map_eq_some'.mp he
    simp [textElem, Ne.symm h4]))]
  rw [xfind_append_none _ _ _ (xfind_ownerBlock_none d _ h5)]
  rw [xfind_append_none _ _ _ (xfind_srcBlock_none d _ h6)]
  exact xfind_map_none _ _ _ (by intro a; simp [feedElem, Ne.symm h7])

theorem xmlOfDict_findall_source (d : OvDict) (items : List (String × String × String))
    (hsrc : d.sources = some items) :
    xfindall "source" (xmlOfDict d).children = items.map dsrcElem := by
  rw [xmlOfDict_children]
  rw [xfindall_append, xfindall_nameBlock_none d _ (by decide), List.nil_append]
  rw [xfindall_append, xfindall_descBlock_none d _ (by decide), List.nil_append]
  rw [xfindall_append, xfindall_optChild_none _ _ (by
    intro e he
    obtain ⟨x, _, rfl⟩ := Option.map_eq_some'.mp he
    simp [textElem]), List.nil_append]
  rw [xfindall_append, xfindall_optChild_none _ _ (by
    intro e he
    obtain ⟨x, _, rfl⟩ := Option.map_eq_some'.mp he
    simp [textElem]), List.nil_append]
  rw [xfindall_append, xfindall_ownerBlock_none d _ (by decide), List.nil_append]
  rw [xfindall_append, xfindall_map_none "source" feedElem d.feeds
    (by intro a; simp [feedElem]), List.append_nil]
  rw [srcBlock, hsrc]
  exact xfindall_map_all _ _ _ (by intro a; simp [dsrcElem])

theorem xmlOfDict_findall_feed (d : OvDict) :
    xfindall "feed" (xmlOfDict d).children = d.feeds.map feedElem := by
  rw [xmlOfDict_children]
  rw [xfindall_append, xfindall_nameBlock_none d _ (by decide), List.nil_append]
  rw [xfindall_append, xfindall_descBlock_none d _ (by decide), List.nil_append]
  rw [xfindall_append, xfindall_optChild_none _ _ (by
    intro e he
    obtain ⟨x, _, rfl⟩ := Option.map_eq_some'.mp he
    simp [textElem]), List.nil_append]
  rw [xfindall_append, xfindall_optChild_none _ _ (by
    intro e he
    obtain ⟨x, _, rfl⟩ := Option.map_eq_some'.mp he
    simp [textElem]), List.nil_append]
  rw [xfindall_append, xfindall_ownerBlock_none d _ (by decide), List.nil_append]
  rw [xfindall_append, xfindall_srcBlock_none d _ (by decide), List.nil_append]
  exact xfindall_map_all _ _ _ (by intro a; simp [feedElem])

theorem xmlOfDict_attrib (d : OvDict) :
    (xmlOfDict d).attrib =
      (match d.status with | some s => [("status", s)] | none => []) ++
        ([("quality", d.quality)] ++
          (match d.priority with | some p => [("priority", pyStrInt p)] | none => [])) := rfl

theorem xmlOfDict_alookup_status (d : OvDict) :
    alookup "status" (xmlOfDict d).attrib = d.status := by
  rw [xmlOfDict_attrib]
  cases hs : d.status <;> cases hp : d.priority <;> simp [alookup]

theorem xmlOfDict_alookup_quality (d : OvDict) :
    alookup "quality" (xmlOfDict d).attrib = some d.quality := by
  rw [xmlOfDict_attrib]
  cases hs : d.status <;> simp [alookup]

theorem xmlOfDict_alookup_priority (d : OvDict) :
    alookup "priority" (xmlOfDict d).attrib =
      d.priority.map (fun p => pyStrInt p) := by
  rw [xmlOfDict_attrib]
  cases hs : d.status <;> cases hp : d.priority <;> simp [alookup]

theorem xmlOfDict_alookup_other (d : OvDict) (k : String)
    (h1 : k ≠ "status") (h2 : k ≠ "quality") (h3 : k ≠ "priority") :
    alookup k (xmlOfDict d).attrib = none := by
  rw [xmlOfDict_attrib]
  cases hs : d.status <;> cases hp : d.priority <;>
    simp [alookup, Ne.symm h1, Ne.symm h2, Ne.symm h3]

theorem parseXmlName_xmlOfDict (d : OvDict) (nm : String) (hname : d.name = some nm) :
    parseXmlName (xmlOfDict d) = .ok (pyStrip nm) := by
  rw [parseXmlName, xmlOfDict_find_name d nm hname]
  rfl

theorem sourceElems_xmlOfDict (d : OvDict) (items : List (String × String × String))
    (hsrc : d.sources = some items) :
    sourceElems (xmlOfDict d) = items.map dsrcElem := by
  rw [sourceElems, xmlOfDict_findall_source d items hsrc]
  cases items with
  | nil =>
    simp only [List.map_nil]
    rw [xmlOfDict_alookup_other d "src" (by decide) (by decide) (by decide)]
  | cons sd rest =>
    simp only [List.map_cons]
    rw [List.filter_eq_self.mpr]
    intro e he
    have hex : ∃ a, dsrcElem a = e := by
      rcases List.mem_cons.mp he with h | h
      · exact ⟨sd, h.symm⟩
      · obtain ⟨a, _, rfl⟩ := List.mem_map.mp h
        exact ⟨a, rfl⟩
    obtain ⟨a, rfl⟩ := hex
    simp [dsrcElem, alookup]

theorem parseOwner_xmlOfDict (d : OvDict) (ignore : Nat) (em onm : String)
    (hemail : d.owner_email = some em) (honame : d.owner_name = some onm) :
    parseOwner (xmlOfDict d) ignore =
      .ok (some (pyStrip em), some (pyStrip onm), []) := by
  rw [parseOwner, xmlOfDict_find_owner d em onm hemail honame]
  simp [xfind, textElem, optChild_some_eq, stripText]

theorem parseDesc_xmlOfDict (d : OvDict) (ignore : Nat) :
    parseDesc (xmlOfDict d) ignore =
      (match d.description with
       | some ds => .ok (collapseWs (pyStrip ds), [])
       | none =>
         if ignore = 0 then .error .missingDescription
         else if ignore = 1 then .ok ("", [.missingDescription])
         else .ok ("", [])) := by
  rw [parseDesc, xmlOfDict_find_description]
  cases hd : d.description <;> rfl

theorem parseQuality_xmlOfDict (d : OvDict) :
    parseQuality (xmlOfDict d) =
      if QUALITY_LEVELS.contains d.quality then d.quality else "experimental" := by
  rw [parseQuality, xmlOfDict_alookup_quality]

theorem parsePriorityX_xmlOfDict (d : OvDict) :
    parsePriorityX (xmlOfDict d) =
      .ok (match d.priority with | some p => p | none => 50) := by
  simp only [parsePriorityX, xmlOfDict_alookup_priority]
  cases hp : d.priority with
  | none => rfl
  | some p =>
    simp only [Option.map_some']
    rw [pyInt_pyStrInt]

theorem parseHomepage_xmlOfDict (d : OvDict) :
    parseHomepage (xmlOfDict d) = d.homepage.map pyStrip := by
  cases hh : d.homepage <;>
    simp [parseHomepage, xmlOfDict_find_homepage, hh, xmlOfDict_find_link,
      stripText, textElem]

theorem parseHint_xmlOfDict (d : OvDict) (t : String)
    (h1 : t ≠ "name") (h2 : t ≠ "description") (h3 : t ≠ "homepage")
    (h4 : t ≠ "irc") (h5 : t ≠ "owner") (h6 : t ≠ "source") (h7 : t ≠ "feed")
    (ha1 : t ≠ "status") (ha2 : t ≠ "quality") (ha3 : t ≠ "priority") :
    parseHint t (xmlOfDict d) = "" := by
  rw [parseHint, xmlOfDict_find_hint d t h1 h2 h3 h4 h5 h6 h7,
    xmlOfDict_alookup_other d t ha1 ha2 ha3]

theorem mapStrip_id (l : List String) (h : ∀ f ∈ l, pyStrip f = f) :
    l.map pyStrip = l := by
  induction l with
  | nil => rfl
  | cons f rest ih =>
    rw [List.map_cons, h f (by simp), ih (fun q hq => h q (by simp [hq]))]

theorem optStrip_id (o : Option String) (h : ∀ x, o = some x → pyStrip x = x) :
    o.map pyStrip = o := by
  cases ho : o with
  | none => rfl
  | some x => simp [h x ho]

theorem quality_levels_nonempty (q : String)
    (h : QUALITY_LEVELS.contains q = true) : q.length ≠ 0 := by
  rw [QUALITY_LEVELS] at h
  simp only [List.contains_cons, List.contains_nil, Bool.or_eq_true, beq_iff_eq] at h
  rcases h with h | h | h | h | ⟨h | h⟩ <;> first | (subst h; decide) | (cases h)

theorem mkSources_dsrc (items : List (String × String × String))
    (h : ∀ sd ∈ items, pyStrip sd.1 = sd.1) :
    mkSources (items.map dsrcElem) = mkDictSources items := by
  induction items with
  | nil => rfl
  | cons sd rest ih =>
    obtain ⟨src, ty, sub⟩ := sd
    have hstrip : pyStrip src = src := h (src, ty, sub) (by simp)
    have hrec := ih (fun q hq => h q (by simp [hq]))
    simp only [List.map_cons, mkSources, mkSource, dsrcElem, alookup, mkDictSources,
      if_true]
    by_cases hty : OVERLAY_TYPES.contains ty = true
    · rw [if_pos hty, if_pos hty, hrec]
      cases mkDictSources rest <;> simp [stripText, hstrip]
    · rw [if_neg hty, if_neg hty]

theorem string_length_ne_zero (s : String) (h : s ≠ "") : s.length ≠ 0 := by
  intro hc
  apply h
  cases s with
  | mk data =>
    cases data with
    | nil => rfl
    | cons c cs => simp [String.length] at hc

/-- C6 (amended): for every overlay definition carrying both an owner
name and an owner email, with whitespace-normalized string fields, a
non-empty source list, status absent or non-empty and priority absent or
non-zero, constructing from the structured-document node and from the
plain key/value mapping produce the same result at every ignore level —
same field values, same warnings, same raises (including the missing-
description behaviour) — except that `from_xml` assigns `branch` and
`subpath` their `''` defaults, which `from_dict` never sets. -/
theorem c6_construction_paths (d : OvDict) (ignore : Nat)
    (nm em onm : String) (items : List (String × String × String))
    (hname : d.name = some nm) (hnm : pyStrip nm = nm)
    (hemail : d.owner_email = some em) (hem : pyStrip em = em)
    (honame : d.owner_name = some onm) (honm : pyStrip onm = onm)
    (hsrc : d.sources = some items) (hitems : items ≠ [])
    (hsrcstrip : ∀ sd ∈ items, pyStrip sd.1 = sd.1)
    (hdesc : ∀ ds, d.description = some ds → pyStrip ds = ds)
    (hstat : d.status ≠ some "") (hprio : d.priority ≠ some 0)
    (hhp : ∀ x, d.homepage = some x → pyStrip x = x)
    (hirc : ∀ x, d.irc = some x → pyStrip x = x)
    (hfeeds : ∀ f ∈ d.feeds, pyStrip f = f) :
    Overlay.from_xml (xmlOfDict d) ignore =
      (Overlay.from_dict d ignore).map
        (fun p => ({ p.1 with branch := some "", subpath := some "" }, p.2)) := by
  obtain ⟨sd0, srest, hsplit⟩ := List.exists_cons_of_ne_nil hitems
  have hsrcs : sourceElems (xmlOfDict d) = dsrcElem sd0 :: srest.map dsrcElem := by
    rw [sourceElems_xmlOfDict d items hsrc, hsplit, List.map_cons]
  have hmk : mkSources (dsrcElem sd0 :: srest.map dsrcElem) = mkDictSources items := by
    rw [← List.map_cons, ← hsplit]
    exact mkSources_dsrc items hsrcstrip
  have hbr := parseHint_xmlOfDict d "branch" (by decide) (by decide) (by decide)
    (by decide) (by decide) (by decide) (by decide) (by decide) (by decide) (by decide)
  have hsub := parseHint_xmlOfDict d "subpath" (by decide) (by decide) (by decide)
    (by decide) (by decide) (by decide) (by decide) (by decide) (by decide) (by decide)
  have hfe : (stripText ∘ feedElem) = pyStrip := by funext x; rfl
  have hie : (stripText ∘ textElem "irc") = pyStrip := by funext x; rfl
  have hstatus_eq : (match d.status with
      | some s => if s.length ≠ 0 then some s else none
      | none => none) = d.status := by
    cases hs : d.status with
    | none => rfl
    | some s =>
      have hne : s ≠ "" := fun hcon => hstat (by rw [hs, hcon])
      simp [string_length_ne_zero s hne]
  have hqual_eq : (if d.quality.length ≠ 0 ∧ QUALITY_LEVELS.contains d.quality
      then d.quality else "experimental")
      = (if QUALITY_LEVELS.contains d.quality then d.quality else "experimental") := by
    by_cases hq : QUALITY_LEVELS.contains d.quality = true
    · rw [if_pos hq, if_pos ⟨quality_levels_nonempty _ hq, hq⟩]
    · rw [if_neg hq, if_neg (fun hc => hq hc.2)]
  have hprio_eq : (match d.priority with
      | some p => if p ≠ 0 then p else 50
      | none => 50) = (match d.priority with | some p => p | none => 50) := by
    cases hp : d.priority with
    | none => rfl
    | some p =>
      have hne : p ≠ 0 := fun hcon => hprio (by rw [hp, hcon])
      simp [hne]
  simp only [Overlay.from_xml, parseXmlName_xmlOfDict d nm hname, hsrcs, hmk,
    parseOwner_xmlOfDict d ignore em onm hemail honame, parseDesc_xmlOfDict,
    parsePriorityX_xmlOfDict, hbr, hsub, xmlOfDict_alookup_status,
    parseQuality_xmlOfDict, parseHomepage_xmlOfDict, xmlOfDict_findall_feed,
    xmlOfDict_find_irc, List.map_map, Option.map_map, hnm, hem, honm, hfe, hie,
    mapStrip_id d.feeds hfeeds, optStrip_id d.irc hirc, optStrip_id d.homepage hhp]
  simp only [Overlay.from_dict, hname, hsrc, dictOwner, honame, hemail]
  cases hmkd : mkDictSources items with
  | error e => rfl
  | ok srcs =>
    cases hd : d.description with
    | some ds =>
      simp only [hdesc ds hd, Except.map, hstatus_eq, hqual_eq, hprio_eq,
        List.nil_append, List.append_nil]
    | none =>
      by_cases hig0 : ignore = 0
      · simp [hig0, Except.map]
      · by_cases hig1 : ignore = 1
        · simp only [hig1, Except.map, hstatus_eq, hqual_eq, hprio_eq,
            List.nil_append, List.append_nil]
          try simp
        · simp only [if_neg hig0, if_neg hig1, Except.map, hstatus_eq, hqual_eq,
            hprio_eq, List.nil_append, List.append_nil]
          try simp

/-- A definition carrying an owner email but no owner name. -/
def dictCx : OvDict :=
  { name := some "x", sources := some [("https://e.org/x.git", "git", "")],
    owner_name := none, owner_email := some "a@b.org", description := some "demo",
    status := none, quality := "", priority := none, homepage := none,
    feeds := [], irc := none }

/-- C6 counterexample: `from_dict` never reads `owner_email` when
`owner_name` is `None` — at ignore level 0 it raises the
missing-owner-email condition while `from_xml` on the equivalent node
succeeds with the email; at ignore level 2 `from_dict` defaults the email
to `None` while `from_xml` keeps it. -/
theorem c6_construction_paths_counterexample :
    dictCx.owner_email = some "a@b.org" ∧
    Overlay.from_dict dictCx 0 = .error .missingOwnerEmail ∧
    (∃ o w, Overlay.from_xml (xmlOfDict dictCx) 0 = .ok (o, w) ∧
       o.owner_email = some "a@b.org") ∧
    (∃ o2 w2, Overlay.from_dict dictCx 2 = .ok (o2, w2) ∧ o2.owner_email = none) := by
  refine ⟨rfl, rfl, ⟨_, _, rfl, rfl⟩, ⟨_, _, rfl, rfl⟩⟩

/-- A whitespace-normalized definition carrying both owner fields. -/
def dictW : OvDict :=
  { name := some "w", sources := some [("https://e.org/w.git", "git", "")],
    owner_name := some "Owner", owner_email := some "o@e.org",
    description := some "demo", status := some "official", quality := "stable",
    priority := some 10, homepage := some "https://e.org", feeds := ["f1"],
    irc := some "#w" }

theorem c6_construction_paths_witness :
    (dictW.name = some "w" ∧ dictW.owner_email = some "o@e.org" ∧
      dictW.owner_name = some "Owner" ∧
      dictW.sources = some [("https://e.org/w.git", "git", "")] ∧
      dictW.status ≠ some "" ∧ dictW.priority ≠ some 0) ∧
    Overlay.from_xml (xmlOfDict dictW) 1 =
      (Overlay.from_dict dictW 1).map
        (fun p => ({ p.1 with branch := some "", subpath := some "" }, p.2)) := by
  refine ⟨⟨rfl, rfl, rfl, rfl, by decide, by decide⟩, ?_⟩
  refine c6_construction_paths dictW 1 "w" "o@e.org" "Owner"
    [("https://e.org/w.git", "git", "")] rfl rfl rfl rfl rfl rfl rfl
    (by decide) (by decide) ?_ (by decide) (by decide) ?_ ?_ (by decide)
  · intro ds h
    rw [show dictW.description = some "demo" from rfl] at h
    injection h with h2
    subst h2
    rfl
  · intro x h
    rw [show dictW.homepage = some "https://e.org" from rfl] at h
    injection h with h2
    subst h2
    rfl
  · intro x h
    rw [show dictW.irc = some "#w" from rfl] at h
    injection h with h2
    subst h2
    rfl
